import Mathlib

/-!
# Nubra Smart Trading Assistant: a shallow embedding of `src/app.js`

The class `SmartTradingAssistant` is embedded as a record `App` holding the
instance fields the verified methods read or write, together with the parts of
the browser environment those methods touch (the `nubra_watchlist` entry of
`localStorage`, the `#notifications` and `#watchlistItems` containers, the
onboarding modal and the pending `setTimeout` callbacks).

Every method is a pure function `App → App`.  A ghost field `trace` records, in
program order, the calls a method makes to `localStorage.setItem` and to
`showNotification`, so that statements such as "does not write to storage" or
"emits exactly one notification" can be expressed.
-/

namespace Nubra

/-! ## Data model -/

/-- A toast created by `showNotification`: the DOM node (identified by `id`)
with its heading, its paragraph and the class suffix `type`. -/
structure Notification where
  id : Nat
  title : String
  message : String
  type : String
  deriving DecidableEq, Repr

/-- A pending `setTimeout` callback of `showNotification`: at time `due` the
notification node `target` is detached from its parent. -/
structure Timer where
  due : Nat
  target : Nat
  deriving DecidableEq, Repr

/-- The observable calls recorded in the ghost trace. -/
inductive Effect where
  /-- A call `localStorage.setItem(key, value)`. -/
  | setItem (key value : String)
  /-- A call `this.showNotification(title, message, type)`. -/
  | notify (title message type : String)
  deriving DecidableEq, Repr

/-- The instance state of `SmartTradingAssistant` and the environment it acts on. -/
structure App where
  /-- Field `this.currentStep`. -/
  currentStep : Nat
  /-- Field `this.isOnboardingComplete`. -/
  isOnboardingComplete : Bool
  /-- Field `this.watchlist`, an array of symbol strings. -/
  watchlist : List String
  /-- The class `hidden` on `#onboardingModal`; `none` when the element is missing. -/
  modalHidden : Option Bool
  /-- The step last drawn by `updateOnboardingStep`. -/
  shownStep : Nat
  /-- The text of `#nextBtn`. -/
  nextBtnText : String
  /-- The value of `localStorage["nubra_watchlist"]`; `none` when the key is absent. -/
  storedWatchlist : Option String
  /-- The symbols drawn in `#watchlistItems`; `none` when the element is missing. -/
  watchlistItems : Option (List String)
  /-- The children of `#notifications`; `none` when the element is missing. -/
  notifications : Option (List Notification)
  /-- The pending timers, in the order they were scheduled. -/
  timers : List Timer
  /-- The current time in milliseconds. -/
  now : Nat
  /-- The identity given to the next created notification node. -/
  nextId : Nat
  /-- Ghost trace of storage writes and notification calls. -/
  trace : List Effect
  deriving DecidableEq, Repr

/-! ## JSON text of the watchlist -/

/-- A hexadecimal digit in lower case, as `JSON.stringify` prints it. -/
def hexDigit (n : Nat) : Char :=
  if n < 10 then Char.ofNat (48 + n) else Char.ofNat (87 + n)

/-- The escape `JSON.stringify` writes for one character of a string
(ECMA-262 `QuoteJSONString`; a Lean `Char` is never a lone surrogate). -/
def jsonEscapeChar (c : Char) : List Char :=
  if c = '"' then ['\\', '"']
  else if c = '\\' then ['\\', '\\']
  else if c.toNat = 8 then ['\\', 'b']
  else if c.toNat = 12 then ['\\', 'f']
  else if c = '\n' then ['\\', 'n']
  else if c = '\r' then ['\\', 'r']
  else if c = '\t' then ['\\', 't']
  else if c.toNat < 32 then
    ['\\', 'u', '0', '0', hexDigit (c.toNat / 16), hexDigit (c.toNat % 16)]
  else [c]

/-- The text `JSON.stringify(s)` of a string. -/
def jsonQuote (s : String) : String :=
  ⟨'"' :: (s.data.flatMap jsonEscapeChar ++ ['"'])⟩

/-- The text `JSON.stringify(xs)` of an array of strings. -/
def jsonStringify (xs : List String) : String :=
  "[" ++ ",".intercalate (xs.map jsonQuote) ++ "]"

/-! ## Notification system -/

/-- Method `showNotification(title, message, type)`: without the container it
returns at once; otherwise a new node is appended and its removal is scheduled
5000 ms later. -/
def showNotification (title message type : String) (a : App) : App :=
  let a := { a with trace := a.trace ++ [Effect.notify title message type] }
  match a.notifications with
  | none => a
  | some ns =>
    { a with
      notifications := some (ns ++ [{ id := a.nextId, title := title, message := message, type := type }])
      nextId := a.nextId + 1
      timers := a.timers ++ [{ due := a.now + 5000, target := a.nextId }] }

/-- The callback of the timer set by `showNotification`: the node is removed
from the container if it is still attached. -/
def removeNotification (target : Nat) (a : App) : App :=
  { a with notifications := a.notifications.map (fun ns => ns.filter (fun n => n.id ≠ target)) }

/-- Time passes until `t`: every timer due by then runs, in scheduling order. -/
def advanceTo (t : Nat) (a : App) : App :=
  let fired := a.timers.filter (fun tm => tm.due ≤ t)
  let a := fired.foldl (fun st tm => removeNotification tm.target st) a
  { a with timers := a.timers.filter (fun tm => ¬ tm.due ≤ t), now := max a.now t }

/-! ## Watchlist -/

/-- Method `saveWatchlist`. -/
def saveWatchlist (a : App) : App :=
  { a with
    storedWatchlist := some (jsonStringify a.watchlist)
    trace := a.trace ++ [Effect.setItem "nubra_watchlist" (jsonStringify a.watchlist)] }

/-- Method `renderWatchlist`: one list item per symbol, or nothing without the container. -/
def renderWatchlist (a : App) : App :=
  match a.watchlistItems with
  | none => a
  | some _ => { a with watchlistItems := some a.watchlist }

/-- Method `addWatchlistItem(symbol)`. -/
def addWatchlistItem (symbol : String) (a : App) : App :=
  if symbol = "" then a
  else if symbol ∈ a.watchlist then
    showNotification "Watchlist" (symbol ++ " is already in your watchlist.") "info" a
  else
    let a := { a with watchlist := symbol :: a.watchlist }
    let a := if a.watchlist.length > 20 then { a with watchlist := a.watchlist.dropLast } else a
    let a := saveWatchlist a
    let a := renderWatchlist a
    showNotification "Watchlist" (symbol ++ " added to watchlist.") "success" a

/-- Method `removeWatchlistItem(symbol)`. -/
def removeWatchlistItem (symbol : String) (a : App) : App :=
  let a := { a with watchlist := a.watchlist.filter (fun s => s ≠ symbol) }
  let a := saveWatchlist a
  let a := renderWatchlist a
  showNotification "Watchlist" (symbol ++ " removed from watchlist.") "info" a

/-- A call on the watchlist store. -/
inductive WatchCall where
  | add (symbol : String)
  | remove (symbol : String)
  deriving DecidableEq, Repr

/-- One call applied to the state. -/
def WatchCall.run : WatchCall → App → App
  | .add s, a => addWatchlistItem s a
  | .remove s, a => removeWatchlistItem s a

/-- A finite sequence of calls, applied from left to right. -/
def runWatchCalls (calls : List WatchCall) (a : App) : App :=
  calls.foldl (fun st c => c.run st) a

/-- The application right after construction, with every container present,
nothing stored, and the watchlist `w`. -/
def App.start (w : List String) : App :=
  { currentStep := 1
    isOnboardingComplete := false
    watchlist := w
    modalHidden := some false
    shownStep := 1
    nextBtnText := "Next"
    storedWatchlist := none
    watchlistItems := some w
    notifications := some []
    timers := []
    now := 0
    nextId := 0
    trace := [] }

/-! ## Loading the watchlist -/

/-- A value produced by `JSON.parse`. -/
inductive JSValue where
  | null
  | bool (b : Bool)
  | num (q : ℚ)
  | str (s : String)
  | arr (items : List JSValue)
  | obj (fields : List (String × JSValue))

/-- An entry of `DEMO_DATA.watchlist`. -/
structure DemoEntry where
  symbol : String
  price : ℚ
  change : ℚ

/-- The constant `DEMO_DATA.watchlist`. -/
def demoWatchlist : List DemoEntry :=
  [ { symbol := "NIFTY", price := 21450, change := 12 / 10 },
    { symbol := "BANKNIFTY", price := 46200, change := -(8 / 10) },
    { symbol := "RELIANCE", price := 2450, change := 21 / 10 },
    { symbol := "TCS", price := 3820, change := -(5 / 10) } ]

/-- A demo entry as a JavaScript object. -/
def DemoEntry.toValue (w : DemoEntry) : JSValue :=
  .obj [("symbol", .str w.symbol), ("price", .num w.price), ("change", .num w.change)]

/-- The fallback `(DEMO_DATA.watchlist || []).map(w => w.symbol || w)`. -/
def defaultWatchlist : JSValue :=
  .arr (demoWatchlist.map (fun w => if w.symbol = "" then w.toValue else .str w.symbol))

/-- The value `initWatchlist` assigns to `this.watchlist`.  `parse` is the
built-in `JSON.parse`, returning `none` where it throws a `SyntaxError`; a
missing or empty stored text is falsy and selects the fallback. -/
def loadWatchlist (parse : String → Option JSValue) (saved : Option String) : JSValue :=
  match saved with
  | none => defaultWatchlist
  | some text =>
    if text = "" then defaultWatchlist
    else
      match parse text with
      | some v => v
      | none => defaultWatchlist

/-- Method `renderWatchlist` on an arbitrary loaded value: with the container
present it calls `this.watchlist.forEach`, which only an array has, and
otherwise throws a `TypeError`. -/
def renderLoaded (container : Bool) (watchlist : JSValue) : Except String JSValue :=
  if container then
    match watchlist with
    | .arr items => .ok (.arr items)
    | _ => .error "TypeError"
  else .ok watchlist

/-- Method `initWatchlist`: the value of `this.watchlist` when it returns, or
the error it throws.  `container` says whether `#watchlistItems` exists. -/
def initWatchlist (parse : String → Option JSValue) (saved : Option String)
    (container : Bool) : Except String JSValue :=
  renderLoaded container (loadWatchlist parse saved)

/-- The symbols of a value that is an array of strings. -/
def JSValue.symbols? : JSValue → Option (List String)
  | .arr items => items.mapM (fun v => match v with | .str s => some s | _ => none)
  | _ => none

/-! ## Onboarding -/

/-- Method `updateOnboardingStep(step)`: the step element shown and the label
of the next button. -/
def updateOnboardingStep (step : Nat) (a : App) : App :=
  { a with shownStep := step, nextBtnText := if step = 3 then "Get Started" else "Next" }

/-- Method `showOnboarding`. -/
def showOnboarding (a : App) : App :=
  match a.modalHidden with
  | none => a
  | some _ => updateOnboardingStep 1 { a with modalHidden := some false }

/-- Method `closeOnboarding`. -/
def closeOnboarding (a : App) : App :=
  match a.modalHidden with
  | none => a
  | some _ => { a with modalHidden := some true }

/-- Method `skipOnboarding`. -/
def skipOnboarding (a : App) : App :=
  closeOnboarding a

/-- Method `completeOnboarding`. -/
def completeOnboarding (a : App) : App :=
  let a := { a with isOnboardingComplete := true }
  let a := closeOnboarding a
  showNotification "Welcome to Smart Trading Assistant!"
    "Your trading patterns have been analyzed and automation suggestions are ready." "success" a

/-- Method `nextStep`. -/
def nextStep (a : App) : App :=
  if a.currentStep < 3 then
    let a := { a with currentStep := a.currentStep + 1 }
    updateOnboardingStep a.currentStep a
  else completeOnboarding a

/-- A call on the onboarding modal. -/
inductive OnboardingCall where
  | nextStep
  | skipOnboarding
  | closeOnboarding
  deriving DecidableEq, Repr

/-- One onboarding call applied to the state. -/
def OnboardingCall.run : OnboardingCall → App → App
  | .nextStep, a => Nubra.nextStep a
  | .skipOnboarding, a => Nubra.skipOnboarding a
  | .closeOnboarding, a => Nubra.closeOnboarding a

/-- A finite sequence of onboarding calls, applied from left to right. -/
def runOnboarding (calls : List OnboardingCall) (a : App) : App :=
  calls.foldl (fun st c => c.run st) a

/-! ## Simulated prices -/

/-- The object returned by `generateSampleChartData`. -/
structure ChartData where
  labels : List String
  prices : List ℚ
  deriving DecidableEq, Repr

/-- The loop state of `generateSampleChartData`: the two arrays and `basePrice`. -/
structure ChartLoop where
  data : ChartData
  basePrice : ℚ
  deriving DecidableEq, Repr

/-- One iteration of the loop of `generateSampleChartData`.  `timeLabel m` is
the formatted time `m` minutes ago and `random i` the draw of iteration `i`. -/
def chartStep (timeLabel : Nat → String) (random : Nat → ℚ) (st : ChartLoop) (i : Nat) :
    ChartLoop :=
  let change := (random i - 1 / 2) * 2
  let basePrice := st.basePrice + change
  { data :=
      { labels := st.data.labels ++ [timeLabel (50 - i)]
        prices := st.data.prices ++ [max 30 (min 60 basePrice)] }
    basePrice := basePrice }

/-- Method `generateSampleChartData`. -/
def generateSampleChartData (timeLabel : Nat → String) (random : Nat → ℚ) : ChartData :=
  ((List.range 50).foldl (chartStep timeLabel random)
    { data := { labels := [], prices := [] }, basePrice := 91 / 2 }).data

/-- The price computed by the 1-second timer of `startDataSimulation`. -/
def tickPrice (lastPrice r : ℚ) : ℚ :=
  let change := (r - 1 / 2) * 1
  max 30 (min 60 (lastPrice + change))

/-- The body of the 1-second timer of `startDataSimulation`, acting on
`chartInstance.data.datasets[0].data` (`none` without a chart) with the draw `r`. -/
def simulationTick (chart : Option (List ℚ)) (r : ℚ) : Option (List ℚ) :=
  match chart with
  | none => none
  | some data =>
    if data.length > 0 then
      let lastIndex := data.length - 1
      match data[lastIndex]? with
      | some lastPrice => some (data.set lastIndex (tickPrice lastPrice r))
      | none => some data
    else some data

/-! ## CSV export -/

/-- The white space and line terminators removed by `String.prototype.trim`. -/
def isJsWhitespace (c : Char) : Bool :=
  let n := c.toNat
  n = 9 || n = 10 || n = 11 || n = 12 || n = 13 || n = 32 || n = 160 || n = 5760 ||
    (8192 ≤ n && n ≤ 8202) || n = 8232 || n = 8233 || n = 8239 || n = 8287 ||
    n = 12288 || n = 65279

/-- The built-in `String.prototype.trim`. -/
def jsTrim (s : String) : String :=
  ⟨((s.data.dropWhile isJsWhitespace).reverse.dropWhile isJsWhitespace).reverse⟩

/-- The built-in `Array.prototype.join` on strings. -/
def jsJoin (sep : String) (parts : List String) : String :=
  ⟨List.intercalate sep.data (parts.map String.data)⟩

/-- An element of a position row matched by the selector `span, .symbol`. -/
structure RowElement where
  /-- Whether the element has the class `symbol`. -/
  isSymbol : Bool
  textContent : String
  deriving DecidableEq, Repr

/-- A `.table-row` of the positions table: the elements matching
`span, .symbol` in document order, and the attribute `data-type`. -/
structure TableRow where
  cols : List RowElement
  dataType : Option String
  deriving DecidableEq, Repr

/-- A value stored in a CSV row: a string, or `undefined`. -/
inductive Cell where
  | str (s : String)
  | undefined
  deriving DecidableEq, Repr

/-- The conversion `String(c)`. -/
def Cell.toText : Cell → String
  | .str s => s
  | .undefined => "undefined"

/-- The text of `cols[i]` trimmed, or the empty string without that element. -/
def colText (cols : List RowElement) (i : Nat) : Cell :=
  match cols[i]? with
  | some c => .str (jsTrim c.textContent)
  | none => .str ""

/-- The five values `[symbol, qty, price, pnl, type]` read from one row. -/
def positionFields (row : TableRow) : List Cell :=
  let cols := row.cols
  let symbol :=
    match cols.find? (fun e => e.isSymbol) with
    | some el => Cell.str (jsTrim el.textContent)
    | none =>
      match cols[0]? with
      | some c => Cell.str (jsTrim c.textContent)
      | none => Cell.undefined
  let qty := colText cols 1
  let price := colText cols 2
  let pnl := colText cols 3
  let type := Cell.str (row.dataType.getD "")
  [symbol, qty, price, pnl, type]

/-- The header row of the export. -/
def csvHeader : List Cell :=
  [.str "Symbol", .str "Qty", .str "Price", .str "P&L", .str "Type"]

/-- The replacement of every double quote by two. -/
def doubleQuotes (s : String) : String :=
  ⟨s.data.flatMap (fun c => if c = '"' then ['"', '"'] else [c])⟩

/-- One CSV field: the text of the value between double quotes, inner quotes doubled. -/
def csvField (c : Cell) : String :=
  "\"" ++ doubleQuotes c.toText ++ "\""

/-- One CSV line: the fields of a row joined by commas. -/
def csvLine (r : List Cell) : String :=
  jsJoin "," (r.map csvField)

/-- The text `csv` built from the array `rows`. -/
def csvText (rows : List (List Cell)) : String :=
  jsJoin "\n" (rows.map csvLine)

/-- The array `rows` filled by `exportPositionsCsv`. -/
def csvRows (positionRows : List TableRow) : List (List Cell) :=
  csvHeader :: positionRows.map positionFields

/-- The CSV text built by method `exportPositionsCsv` from the rows of the positions table. -/
def exportPositionsCsv (positionRows : List TableRow) : String :=
  csvText (csvRows positionRows)

/-- Twenty-one pairwise distinct, non-empty symbols. -/
def sampleSymbols : List String :=
  ["S01", "S02", "S03", "S04", "S05", "S06", "S07", "S08", "S09", "S10", "S11",
    "S12", "S13", "S14", "S15", "S16", "S17", "S18", "S19", "S20", "S21"]

/-- The lines of a text: the pieces between its newline characters. -/
def newlineLines (text : String) : List String :=
  (text.data.splitOn '\n').map String.mk

/-- A position row as the page draws it: symbol, quantity, price and P&L. -/
def samplePosition : TableRow :=
  { cols :=
      [⟨true, " NIFTY23DEC21000CE "⟩, ⟨false, " 50\t"⟩, ⟨false, "\n45.50 "⟩, ⟨false, " +1,250 "⟩]
    dataType := some "CE" }

/-- A position row whose first matched element is a badge, the `.symbol`
element coming second, and which has no `data-type` attribute. -/
def badgePosition : TableRow :=
  { cols :=
      [⟨false, "CE"⟩, ⟨true, " BANKNIFTY "⟩, ⟨false, "25"⟩, ⟨false, "89.20"⟩, ⟨false, "-340"⟩]
    dataType := none }

/-- A position row without a `.symbol` element and with only two spans. -/
def plainPosition : TableRow :=
  { cols := [⟨false, " TCS "⟩, ⟨false, "1"⟩]
    dataType := some "CE" }

/-- A position row in which nothing matches `span, .symbol`. -/
def bareRow : TableRow :=
  { cols := []
    dataType := none }

/-- A position row whose symbol text has a blank on each side. -/
def paddedPosition : TableRow :=
  { cols := [⟨true, " NIFTY "⟩, ⟨false, "50"⟩, ⟨false, "45.50"⟩, ⟨false, "+1,250"⟩]
    dataType := some "CE" }

/-- A position row whose symbol text says "x" in quotes. -/
def quotedPosition : TableRow :=
  { cols := [⟨true, "the \"x\" leg"⟩, ⟨false, "25"⟩, ⟨false, "89.20"⟩, ⟨false, "-340"⟩]
    dataType := some "PE" }

/-- A position row whose symbol text runs over two lines. -/
def twoLinePosition : TableRow :=
  { cols := [⟨true, "NIFTY\nCE"⟩, ⟨false, "50"⟩, ⟨false, "45.50"⟩, ⟨false, "+1,250"⟩]
    dataType := some "CE" }

/-! ## Tabs -/

/-- An element of the page, with what `showTab` reads and writes. -/
structure Element where
  /-- The identifier; `none` for an element without one. -/
  id : Option String
  /-- Whether the element has the class `tab`. -/
  isTab : Bool
  /-- Whether the element has the class `tab-content`. -/
  isTabContent : Bool
  /-- The class `active`. -/
  active : Bool
  /-- The class `hidden`. -/
  hidden : Bool
  textContent : String
  deriving DecidableEq, Repr

/-- The elements of the document, in document order, and the field `this.currentTab`. -/
structure TabView where
  elements : List Element
  currentTab : String
  deriving DecidableEq, Repr

/-- The callback of the first loop of `showTab` on one `.tab` element. -/
def activateTab (toLowerCase : String → String) (tabName : String) (tab : Element) : Element :=
  let tab := { tab with active := false }
  if toLowerCase tab.textContent = tabName then { tab with active := true } else tab

/-- The lookup `document.getElementById(name)` followed by
`classList.remove('hidden')` on the element found: the first element in
document order that carries the identifier. -/
def removeHiddenById (name : String) : List Element → List Element
  | [] => []
  | e :: rest =>
    if e.id = some name then { e with hidden := false } :: rest
    else e :: removeHiddenById name rest

/-- Method `showTab(tabName)`.  `toLowerCase` is the built-in
`String.prototype.toLowerCase`. -/
def showTab (toLowerCase : String → String) (tabName : String) (v : TabView) : TabView :=
  let els := v.elements.map (fun e => if e.isTab then activateTab toLowerCase tabName e else e)
  let els := els.map (fun e => if e.isTabContent then { e with hidden := true } else e)
  let els := removeHiddenById tabName els
  { elements := els, currentTab := tabName }

/-- The tab-content panels that are not hidden. -/
def visiblePanels (v : TabView) : List Element :=
  v.elements.filter (fun e => e.isTabContent && !e.hidden)

/-- Lower-casing of the letters `A` to `Z`, as `toLowerCase` acts on ASCII text. -/
def asciiLowerCase (s : String) : String :=
  ⟨s.data.map Char.toLower⟩

/-- A page with three tabs and their three panels, the first one shown. -/
def sampleTabs : TabView :=
  { elements :=
      [ ⟨none, true, false, true, false, "Positions"⟩,
        ⟨none, true, false, false, false, "Orders"⟩,
        ⟨none, true, false, false, false, "Algorithms"⟩,
        ⟨some "positions", false, true, false, false, ""⟩,
        ⟨some "orders", false, true, false, true, ""⟩,
        ⟨some "algorithms", false, true, false, true, ""⟩ ]
    currentTab := "positions" }

/-! ## Guided tour -/

/-- A step of the tour: the selector of its target and its text. -/
structure TourStep where
  el : String
  text : String
  deriving DecidableEq, Repr

/-- The constant `steps` of `startTour`. -/
def tourSteps : List TourStep :=
  [ ⟨".header", "This is the header. Access navigation and account actions here."⟩,
    ⟨".sidebar", "Assistant panel: detected patterns, suggestions and progress."⟩,
    ⟨".chart-section", "Live chart with quick trade overlay."⟩,
    ⟨".positions-section", "View positions, orders and algorithms here."⟩ ]

/-- Where `showStep` puts the tour card. -/
inductive CardPlace where
  /-- No inline position yet. -/
  | unset
  /-- Near the target, at `top` and `left` pixels. -/
  | near (top left : ℚ)
  /-- At 80px from the top, centred. -/
  | centered
  deriving DecidableEq, Repr

/-- The variables of one `startTour` call: the index `idx`, whether the
overlay is attached to the document, the text of `#tourText` and the card. -/
structure Tour where
  idx : Nat
  overlay : Bool
  tourText : String
  card : CardPlace
  deriving DecidableEq, Repr

/-- The closure `showStep(i)`; `none` is the `TypeError` of reading `step.el`
when `steps[idx]` is undefined.  `rect sel` gives the page offsets
`(rect.top + scrollY, rect.left + scrollX)` of the element matching `sel`,
if there is one.  The overlay holds `#tourText` and the card. -/
def showStep (rect : String → Option (ℚ × ℚ)) (i : Nat) (t : Tour) : Option Tour :=
  match tourSteps[i]? with
  | none => none
  | some step =>
    some
      { t with
        idx := i
        tourText := toString (i + 1) ++ ". " ++ step.text
        card :=
          match rect step.el with
          | some (top, left) => CardPlace.near (max 10 (top + 10)) (max 10 (left + 10))
          | none => CardPlace.centered }

/-- Method `endTour(overlay)`. -/
def endTour (t : Tour) : Tour :=
  if t.overlay then { t with overlay := false } else t

/-- Method `startTour`, up to the first `showStep(0)`. -/
def startTour (rect : String → Option (ℚ × ℚ)) : Option Tour :=
  showStep rect 0 { idx := 0, overlay := true, tourText := "", card := CardPlace.unset }

/-- A click on one of the three buttons of the tour card. -/
inductive TourClick where
  | next
  | prev
  | close
  deriving DecidableEq, Repr

/-- The click handlers registered by `startTour`. -/
def TourClick.run (rect : String → Option (ℚ × ℚ)) : TourClick → Tour → Option Tour
  | .next, t => if t.idx < tourSteps.length - 1 then showStep rect (t.idx + 1) t else some (endTour t)
  | .prev, t => if t.idx > 0 then showStep rect (t.idx - 1) t else some t
  | .close, t => some (endTour t)

/-- A sequence of clicks, handled in order; an error stops the run. -/
def runTour (rect : String → Option (ℚ × ℚ)) : List TourClick → Tour → Option Tour
  | [], t => some t
  | c :: rest, t =>
    match c.run rect t with
    | none => none
    | some t2 => runTour rect rest t2

/-! ## Notifications over time -/

/-- What happens after a notification is shown: a further `showNotification`
call, or time passing until `t`. -/
inductive NotifEvent where
  | push (title message type : String)
  | wait (t : Nat)
  deriving DecidableEq, Repr

/-- One event applied to the state. -/
def NotifEvent.run : NotifEvent → App → App
  | .push title message type, a => showNotification title message type a
  | .wait t, a => advanceTo t a

/-- A sequence of events, applied from left to right. -/
def runNotifEvents (evs : List NotifEvent) (a : App) : App :=
  evs.foldl (fun st e => e.run st) a

/-- The number of `showNotification` calls among the events. -/
def pushCount (evs : List NotifEvent) : Nat :=
  (evs.filter (fun e => match e with | .push _ _ _ => true | .wait _ => false)).length

/-! ## Simulated profit and loss -/

/-- A `.pnl` cell of the positions table. -/
structure PnlCell where
  textContent : String
  className : String
  deriving DecidableEq, Repr

/-- The replacement `replace(/[₹,+-]/g, '')` of `simulatePortfolioUpdates`. -/
def stripPnlChars (text : String) : String :=
  ⟨text.data.filter (fun c => !(c = '₹' || c = ',' || c = '+' || c = '-'))⟩

/-- The callback of `simulatePortfolioUpdates` on one cell with the draw `r`.
`parseFloat` is the built-in (`none` for `NaN`) and `toLocaleString` the
built-in `Number.prototype.toLocaleString('en-IN')`; `NaN >= 0` is false and
`NaN` prints as `NaN`. -/
def simulatePnl (parseFloat : String → Option ℚ) (toLocaleString : ℚ → String) (r : ℚ)
    (pnlEl : PnlCell) : PnlCell :=
  match parseFloat (stripPnlChars pnlEl.textContent) with
  | none => { textContent := "-₹" ++ "NaN", className := "pnl " ++ "negative" }
  | some currentPnL =>
    let change := (r - 1 / 2) * 100
    let newPnL := currentPnL + change
    { textContent := (if newPnL ≥ 0 then "+₹" else "-₹") ++ toLocaleString |newPnL|
      className := "pnl " ++ (if newPnL ≥ 0 then "positive" else "negative") }

/-- Method `simulatePortfolioUpdates` on the `.pnl` cells of the table;
`random i` is the draw made for the cell of index `i`. -/
def simulatePortfolioUpdates (parseFloat : String → Option ℚ) (toLocaleString : ℚ → String)
    (random : Nat → ℚ) (positions : List PnlCell) : List PnlCell :=
  positions.enum.map (fun p => simulatePnl parseFloat toLocaleString (random p.1) p.2)

/-! ## The chart series as a walk -/

/-- The value of `basePrice` after `k` iterations of the loop of
`generateSampleChartData`. -/
def basePriceAfter (random : Nat → ℚ) : Nat → ℚ
  | 0 => 91 / 2
  | k + 1 => basePriceAfter random k + (random k - 1 / 2) * 2

/-- The generator step as the specification words it:
`previous + uniform(-volatility/2, +volatility/2)`, clamped to
`[lowerBound, upperBound]`, the uniform value being `(draw - 0.5) * volatility`. -/
def specNext (previous volatility lowerBound upperBound draw : ℚ) : ℚ :=
  max lowerBound (min upperBound (previous + (draw - 1 / 2) * volatility))

/-- The walk of the specification: `n` values, each the generator step applied
to the value before it, starting after `previous` with the draw of index `i`. -/
def specWalkFrom (random : Nat → ℚ) (previous : ℚ) (i : Nat) : Nat → List ℚ
  | 0 => []
  | n + 1 =>
    specNext previous 2 30 60 (random i) ::
      specWalkFrom random (specNext previous 2 30 60 (random i)) (i + 1) n

/-- The series of the specification: the clamped walk of 50 values from the base price 45.50. -/
def specClampedWalk (random : Nat → ℚ) : List ℚ :=
  specWalkFrom random (91 / 2) 0 50

/-- Draws that take the walk below 30 and then turn it upwards: seventeen
times 0, then 3/4. -/
def dippingDraws (i : Nat) : ℚ :=
  if i < 17 then 0 else 3 / 4

/-- Draws that move the walk at every step and keep it within the bounds: 0
at the even iterations and 3/4 at the odd ones. -/
def alternatingDraws (i : Nat) : ℚ :=
  if i % 2 = 0 then 0 else 3 / 4

/-- The situation of the notification node `n`, whose removal is due at time
`due`, in a state `b` reached after at most `k` further `showNotification`
calls: before `due` the node is in the list, followed by at most `k` nodes,
no other node shares its identity and exactly its own timer targets it; from
`due` on the node is not in the list. -/
def Tracked (n : Notification) (due k : Nat) (b : App) : Prop :=
  n.id < b.nextId ∧
    (b.now < due → ∃ pre post, b.notifications = some (pre ++ n :: post) ∧ post.length ≤ k ∧
      (∀ m ∈ pre, m.id ≠ n.id) ∧ (∀ m ∈ post, m.id ≠ n.id) ∧
      (⟨due, n.id⟩ : Timer) ∈ b.timers ∧ ∀ tm ∈ b.timers, tm.target = n.id → tm.due = due) ∧
    (due ≤ b.now → ∃ l, b.notifications = some l ∧ n ∉ l)

/-! # Theorems -/

/-! ## Watchlist store -/

theorem showNotification_watchlist (t m ty : String) (a : App) :
    (showNotification t m ty a).watchlist = a.watchlist := by
  unfold showNotification
  cases h : a.notifications <;> simp [h]

theorem showNotification_storedWatchlist (t m ty : String) (a : App) :
    (showNotification t m ty a).storedWatchlist = a.storedWatchlist := by
  unfold showNotification
  cases h : a.notifications <;> simp [h]

theorem showNotification_trace (t m ty : String) (a : App) :
    (showNotification t m ty a).trace = a.trace ++ [Effect.notify t m ty] := by
  unfold showNotification
  cases h : a.notifications <;> simp [h]

theorem showNotification_notifications (t m ty : String) (a : App) (ns : List Notification)
    (h : a.notifications = some ns) :
    (showNotification t m ty a).notifications =
      some (ns ++ [{ id := a.nextId, title := t, message := m, type := ty }]) := by
  unfold showNotification
  simp [h]

theorem renderWatchlist_watchlist (a : App) : (renderWatchlist a).watchlist = a.watchlist := by
  unfold renderWatchlist
  cases h : a.watchlistItems <;> simp

theorem renderWatchlist_storedWatchlist (a : App) :
    (renderWatchlist a).storedWatchlist = a.storedWatchlist := by
  unfold renderWatchlist
  cases h : a.watchlistItems <;> simp

theorem renderWatchlist_trace (a : App) : (renderWatchlist a).trace = a.trace := by
  unfold renderWatchlist
  cases h : a.watchlistItems <;> simp

theorem renderWatchlist_notifications (a : App) :
    (renderWatchlist a).notifications = a.notifications := by
  unfold renderWatchlist
  cases h : a.watchlistItems <;> simp

theorem renderWatchlist_nextId (a : App) : (renderWatchlist a).nextId = a.nextId := by
  unfold renderWatchlist
  cases h : a.watchlistItems <;> simp

/-- The watchlist left by `addWatchlistItem` on a new, non-empty symbol. -/
theorem addWatchlistItem_watchlist_new (s : String) (a : App) (hs : s ≠ "")
    (hnew : s ∉ a.watchlist) :
    (addWatchlistItem s a).watchlist =
      if a.watchlist.length + 1 > 20 then (s :: a.watchlist).dropLast else s :: a.watchlist := by
  unfold addWatchlistItem
  simp only [if_neg hs, if_neg hnew, showNotification_watchlist, renderWatchlist_watchlist,
    saveWatchlist, List.length_cons]
  split <;> rfl

/-- The watchlist is untouched when the symbol is empty or already present. -/
theorem addWatchlistItem_watchlist_old (s : String) (a : App) (h : s = "" ∨ s ∈ a.watchlist) :
    (addWatchlistItem s a).watchlist = a.watchlist := by
  unfold addWatchlistItem
  by_cases hs : s = ""
  · simp [hs]
  · have hmem : s ∈ a.watchlist := h.resolve_left hs
    simp only [if_neg hs, if_pos hmem, showNotification_watchlist]

theorem removeWatchlistItem_watchlist (s : String) (a : App) :
    (removeWatchlistItem s a).watchlist = a.watchlist.filter (fun x => x ≠ s) := by
  unfold removeWatchlistItem
  simp only [showNotification_watchlist, renderWatchlist_watchlist, saveWatchlist]

/-- On a watchlist of at most 20 entries, a new symbol goes to the front and
the first 20 entries are kept. -/
theorem addWatchlistItem_watchlist_take (s : String) (a : App) (hs : s ≠ "")
    (hnew : s ∉ a.watchlist) (hlen : a.watchlist.length ≤ 20) :
    (addWatchlistItem s a).watchlist = (s :: a.watchlist).take 20 := by
  rw [addWatchlistItem_watchlist_new s a hs hnew]
  split
  · have h20 : a.watchlist.length = 20 := by omega
    rw [List.dropLast_eq_take]
    simp [h20]
  · rw [List.take_of_length_le]
    simp only [List.length_cons]
    omega

/-- One call keeps the watchlist free of duplicates and within 20 entries. -/
theorem WatchCall.run_invariant (c : WatchCall) (a : App) (hnd : a.watchlist.Nodup)
    (hlen : a.watchlist.length ≤ 20) :
    (c.run a).watchlist.Nodup ∧ (c.run a).watchlist.length ≤ 20 := by
  cases c with
  | add s =>
    simp only [WatchCall.run]
    by_cases h : s = "" ∨ s ∈ a.watchlist
    · rw [addWatchlistItem_watchlist_old s a h]
      exact ⟨hnd, hlen⟩
    · have hs : s ≠ "" := fun e => h (Or.inl e)
      have hnew : s ∉ a.watchlist := fun e => h (Or.inr e)
      rw [addWatchlistItem_watchlist_take s a hs hnew hlen]
      constructor
      · exact List.Nodup.sublist (List.take_sublist _ _) (List.nodup_cons.mpr ⟨hnew, hnd⟩)
      · simp only [List.length_take, List.length_cons]
        omega
  | remove s =>
    simp only [WatchCall.run]
    rw [removeWatchlistItem_watchlist]
    exact ⟨hnd.filter _, le_trans (List.length_filter_le _ _) hlen⟩

/-- C1: from a watchlist without duplicate symbols and with at most 20
entries, every finite sequence of `addWatchlistItem` and `removeWatchlistItem`
calls, with arbitrary symbol strings, leaves a watchlist without duplicate
symbols and with at most 20 entries. -/
theorem watchlist_invariant (calls : List WatchCall) (a : App) (hnd : a.watchlist.Nodup)
    (hlen : a.watchlist.length ≤ 20) :
    (runWatchCalls calls a).watchlist.Nodup ∧ (runWatchCalls calls a).watchlist.length ≤ 20 := by
  induction calls generalizing a with
  | nil => exact ⟨hnd, hlen⟩
  | cons c rest ih =>
    have hstep := WatchCall.run_invariant c a hnd hlen
    exact ih (c.run a) hstep.1 hstep.2

theorem watchlist_invariant_witness :
    (App.start ["NIFTY", "TCS"]).watchlist.Nodup ∧
      (App.start ["NIFTY", "TCS"]).watchlist.length ≤ 20 ∧
      (runWatchCalls [.add "INFY", .add "", .remove "NIFTY", .add "TCS"]
        (App.start ["NIFTY", "TCS"])).watchlist.Nodup ∧
      (runWatchCalls [.add "INFY", .add "", .remove "NIFTY", .add "TCS"]
        (App.start ["NIFTY", "TCS"])).watchlist.length ≤ 20 :=
  ⟨by decide, by decide,
    watchlist_invariant [.add "INFY", .add "", .remove "NIFTY", .add "TCS"]
      (App.start ["NIFTY", "TCS"]) (by decide) (by decide)⟩

theorem take_append_take {α : Type} (n : Nat) (xs ys : List α) :
    (xs ++ ys.take n).take n = (xs ++ ys).take n := by
  rw [List.take_append_eq_append_take, List.take_append_eq_append_take, List.take_take]
  congr 2
  omega

/-- Adding fresh, pairwise distinct, non-empty symbols one after the other
stacks them in front of the watchlist and keeps the first 20 entries. -/
theorem runWatchCalls_add_fresh (l : List String) (a : App) (hnd : l.Nodup)
    (hne : ∀ s ∈ l, s ≠ "") (hfresh : ∀ s ∈ l, s ∉ a.watchlist)
    (hlen : a.watchlist.length ≤ 20) :
    (runWatchCalls (l.map WatchCall.add) a).watchlist = (l.reverse ++ a.watchlist).take 20 := by
  induction l generalizing a with
  | nil =>
    simp only [runWatchCalls, List.map_nil, List.foldl_nil, List.reverse_nil, List.nil_append]
    exact (List.take_of_length_le hlen).symm
  | cons x rest ih =>
    have hx : x ≠ "" := hne x (List.mem_cons_self _ _)
    have hxw : x ∉ a.watchlist := hfresh x (List.mem_cons_self _ _)
    have hstep := addWatchlistItem_watchlist_take x a hx hxw hlen
    have hnd2 := List.nodup_cons.mp hnd
    have hrun : runWatchCalls ((x :: rest).map WatchCall.add) a =
        runWatchCalls (rest.map WatchCall.add) (addWatchlistItem x a) := rfl
    rw [hrun, ih (addWatchlistItem x a) hnd2.2
      (fun s hs => hne s (List.mem_cons_of_mem _ hs)) ?_ ?_, hstep, take_append_take]
    · simp
    · intro s hs hmem
      rw [hstep] at hmem
      rcases List.mem_cons.mp (List.mem_of_mem_take hmem) with h | h
      · exact hnd2.1 (h ▸ hs)
      · exact hfresh s (List.mem_cons_of_mem _ hs) h
    · rw [hstep]
      simp only [List.length_take, List.length_cons]
      omega

/-- C2, as stated, fails: from the watchlist `["S02"]` the 21 symbols
`S01 … S21` leave `S21 … S03, S01`, because `S02` is skipped as a duplicate
while `S01` is kept; the last 20 symbols would be `S21 … S02`. -/
theorem add21_counterexample :
    (App.start ["S02"]).watchlist.Nodup ∧ (App.start ["S02"]).watchlist.length ≤ 20 ∧
      sampleSymbols.length = 21 ∧ sampleSymbols.Nodup ∧ (∀ s ∈ sampleSymbols, s ≠ "") ∧
      (runWatchCalls (sampleSymbols.map WatchCall.add) (App.start ["S02"])).watchlist =
        ["S21", "S20", "S19", "S18", "S17", "S16", "S15", "S14", "S13", "S12", "S11",
          "S10", "S09", "S08", "S07", "S06", "S05", "S04", "S03", "S01"] ∧
      (runWatchCalls (sampleSymbols.map WatchCall.add) (App.start ["S02"])).watchlist ≠
        (sampleSymbols.drop 1).reverse := by
  refine ⟨by decide, by decide, by decide, by decide, by decide, ?_, ?_⟩ <;> decide

/-- C2, amended: for every starting watchlist of at most 20 entries and every
21 pairwise distinct non-empty symbols of which the last 20 are not in the
starting watchlist, passing them in order to `addWatchlistItem` leaves exactly
the last 20 of those symbols, most recently added first. -/
theorem add21_keeps_last20 (a : App) (syms : List String) (hlen : a.watchlist.length ≤ 20)
    (h21 : syms.length = 21) (hnd : syms.Nodup) (hne : ∀ s ∈ syms, s ≠ "")
    (hfresh : ∀ s ∈ syms.drop 1, s ∉ a.watchlist) :
    (runWatchCalls (syms.map WatchCall.add) a).watchlist = (syms.drop 1).reverse := by
  cases syms with
  | nil => simp at h21
  | cons first rest =>
    simp only [List.drop_succ_cons, List.drop_zero] at hfresh ⊢
    have hrest : rest.length = 20 := by simpa using h21
    have hnd2 := List.nodup_cons.mp hnd
    have hfirst : first ≠ "" := hne first (List.mem_cons_self _ _)
    have hrun : runWatchCalls ((first :: rest).map WatchCall.add) a =
        runWatchCalls (rest.map WatchCall.add) (addWatchlistItem first a) := rfl
    have hkeep : (addWatchlistItem first a).watchlist.length ≤ 20 ∧
        ∀ s ∈ rest, s ∉ (addWatchlistItem first a).watchlist := by
      by_cases hmem : first ∈ a.watchlist
      · rw [addWatchlistItem_watchlist_old first a (Or.inr hmem)]
        exact ⟨hlen, hfresh⟩
      · rw [addWatchlistItem_watchlist_take first a hfirst hmem hlen]
        refine ⟨by simp only [List.length_take, List.length_cons]; omega, ?_⟩
        intro s hs hin
        rcases List.mem_cons.mp (List.mem_of_mem_take hin) with h | h
        · exact hnd2.1 (h ▸ hs)
        · exact hfresh s hs h
    rw [hrun, runWatchCalls_add_fresh rest _ hnd2.2
      (fun s hs => hne s (List.mem_cons_of_mem _ hs)) hkeep.2 hkeep.1]
    rw [List.take_append_eq_append_take]
    simp [hrest]

theorem add21_keeps_last20_witness :
    (runWatchCalls (sampleSymbols.map WatchCall.add) (App.start ["S01", "OLD"])).watchlist =
      (sampleSymbols.drop 1).reverse :=
  add21_keeps_last20 (App.start ["S01", "OLD"]) sampleSymbols (by decide) (by decide)
    (by decide) (by decide) (by decide)

/-- C3: on a watchlist `w` of at most 20 entries and a non-empty symbol `s`
not in `w`, `addWatchlistItem s` leaves `s` followed by the entries of `w` in
their order, without the last entry of `w` exactly when `w` had 20 entries;
the stored text is that of the new watchlist, written once, and exactly one
notification is emitted, of type `success` (and shown when the container exists). -/
theorem addWatchlistItem_new (s : String) (a : App) (hlen : a.watchlist.length ≤ 20)
    (hs : s ≠ "") (hnew : s ∉ a.watchlist) :
    (addWatchlistItem s a).watchlist =
        (if a.watchlist.length = 20 then s :: a.watchlist.dropLast else s :: a.watchlist) ∧
      (addWatchlistItem s a).storedWatchlist =
        some (jsonStringify (addWatchlistItem s a).watchlist) ∧
      (addWatchlistItem s a).trace = a.trace ++
        [Effect.setItem "nubra_watchlist" (jsonStringify (addWatchlistItem s a).watchlist),
          Effect.notify "Watchlist" (s ++ " added to watchlist.") "success"] ∧
      (∀ ns, a.notifications = some ns →
        (addWatchlistItem s a).notifications = some (ns ++
          [{ id := a.nextId, title := "Watchlist", message := s ++ " added to watchlist.",
             type := "success" }])) := by
  have hw := addWatchlistItem_watchlist_new s a hs hnew
  refine ⟨?_, ?_, ?_, ?_⟩
  · rw [hw]
    by_cases h20 : a.watchlist.length = 20
    · have hne : a.watchlist ≠ [] := by
        intro h
        rw [h] at h20
        simp at h20
      simp [h20, List.dropLast_cons_of_ne_nil hne]
    · have hlt : ¬ a.watchlist.length + 1 > 20 := by omega
      simp [h20, hlt]
  · rw [hw]
    unfold addWatchlistItem
    simp only [if_neg hs, if_neg hnew, showNotification_storedWatchlist,
      renderWatchlist_storedWatchlist, saveWatchlist, List.length_cons]
    split <;> rfl
  · rw [hw]
    unfold addWatchlistItem
    simp only [if_neg hs, if_neg hnew, showNotification_trace, renderWatchlist_trace,
      saveWatchlist, List.length_cons]
    split <;> simp
  · intro ns hns
    unfold addWatchlistItem
    simp only [if_neg hs, if_neg hnew]
    rw [showNotification_notifications _ _ _ _ ns]
    · simp only [renderWatchlist_nextId, saveWatchlist]
      split <;> rfl
    · simp only [renderWatchlist_notifications, saveWatchlist]
      split <;> exact hns

theorem addWatchlistItem_new_witness :
    (addWatchlistItem "INFY" (App.start ["NIFTY", "TCS"])).watchlist = ["INFY", "NIFTY", "TCS"] ∧
      (addWatchlistItem "INFY" (App.start ["NIFTY", "TCS"])).storedWatchlist =
        some "[\"INFY\",\"NIFTY\",\"TCS\"]" ∧
      (addWatchlistItem "INFY" (App.start ["NIFTY", "TCS"])).trace =
        [Effect.setItem "nubra_watchlist" "[\"INFY\",\"NIFTY\",\"TCS\"]",
          Effect.notify "Watchlist" "INFY added to watchlist." "success"] := by
  have h := addWatchlistItem_new "INFY" (App.start ["NIFTY", "TCS"]) (by decide) (by decide)
    (by decide)
  refine ⟨?_, ?_, ?_⟩
  · rw [h.1]; decide
  · rw [h.2.1, h.1]; decide
  · rw [h.2.2.1, h.1]; decide

/-- C4, as stated, fails: on the watchlist `[""]` the empty symbol is present,
yet `addWatchlistItem ""` returns at its first guard and emits no notification. -/
theorem addWatchlistItem_present_counterexample :
    "" ∈ (App.start [""]).watchlist ∧
      (addWatchlistItem "" (App.start [""])).trace = (App.start [""]).trace ∧
      (addWatchlistItem "" (App.start [""])).notifications = (App.start [""]).notifications ∧
      ¬ ∃ e, (addWatchlistItem "" (App.start [""])).trace = (App.start [""]).trace ++ [e] := by
  refine ⟨by decide, by decide, by decide, ?_⟩
  rintro ⟨e, he⟩
  have hlen := congrArg List.length he
  simp [addWatchlistItem] at hlen

/-- C4, amended: for every watchlist and every non-empty symbol already
present in it, `addWatchlistItem` leaves the watchlist unchanged in content,
order and length, writes nothing to storage, and emits exactly one
notification, of type `info` and not `success`. -/
theorem addWatchlistItem_present (s : String) (a : App) (hs : s ≠ "")
    (hmem : s ∈ a.watchlist) :
    (addWatchlistItem s a).watchlist = a.watchlist ∧
      (addWatchlistItem s a).storedWatchlist = a.storedWatchlist ∧
      (addWatchlistItem s a).trace = a.trace ++
        [Effect.notify "Watchlist" (s ++ " is already in your watchlist.") "info"] ∧
      (∀ ns, a.notifications = some ns →
        (addWatchlistItem s a).notifications = some (ns ++
          [{ id := a.nextId, title := "Watchlist",
             message := s ++ " is already in your watchlist.", type := "info" }])) ∧
      "info" ≠ "success" := by
  unfold addWatchlistItem
  simp only [if_neg hs, if_pos hmem]
  refine ⟨showNotification_watchlist _ _ _ _, showNotification_storedWatchlist _ _ _ _,
    showNotification_trace _ _ _ _, ?_, by decide⟩
  intro ns hns
  exact showNotification_notifications _ _ _ _ ns hns

theorem addWatchlistItem_present_witness :
    (addWatchlistItem "NIFTY" (addWatchlistItem "NIFTY" (App.start []))).watchlist =
        (addWatchlistItem "NIFTY" (App.start [])).watchlist ∧
      (addWatchlistItem "NIFTY" (addWatchlistItem "NIFTY" (App.start []))).trace =
        (addWatchlistItem "NIFTY" (App.start [])).trace ++
          [Effect.notify "Watchlist" ("NIFTY" ++ " is already in your watchlist.") "info"] :=
  have h := addWatchlistItem_present "NIFTY" (addWatchlistItem "NIFTY" (App.start []))
    (by decide) (by decide)
  ⟨h.1, h.2.2.1⟩

/-- C5: for every watchlist and every symbol, `removeWatchlistItem` leaves
exactly the entries different from the symbol, in their order, and emits
exactly one notification, of type `info`, whether or not the symbol was
present; a symbol that is not present leaves the watchlist unchanged. -/
theorem removeWatchlistItem_spec (s : String) (a : App) :
    (removeWatchlistItem s a).watchlist = a.watchlist.filter (fun x => x ≠ s) ∧
      (removeWatchlistItem s a).trace = a.trace ++
        [Effect.setItem "nubra_watchlist" (jsonStringify (a.watchlist.filter (fun x => x ≠ s))),
          Effect.notify "Watchlist" (s ++ " removed from watchlist.") "info"] ∧
      (∀ ns, a.notifications = some ns →
        (removeWatchlistItem s a).notifications = some (ns ++
          [{ id := a.nextId, title := "Watchlist", message := s ++ " removed from watchlist.",
             type := "info" }])) ∧
      (s ∉ a.watchlist → (removeWatchlistItem s a).watchlist = a.watchlist) := by
  have hw := removeWatchlistItem_watchlist s a
  refine ⟨hw, ?_, ?_, ?_⟩
  · unfold removeWatchlistItem
    simp only [showNotification_trace, renderWatchlist_trace, saveWatchlist, List.append_assoc,
      List.singleton_append]
  · intro ns hns
    unfold removeWatchlistItem
    rw [showNotification_notifications _ _ _ _ ns]
    · simp only [renderWatchlist_nextId, saveWatchlist]
    · simp only [renderWatchlist_notifications, saveWatchlist]
      exact hns
  · intro hnot
    rw [hw, List.filter_eq_self]
    intro x hx
    have hxs : x ≠ s := fun e => hnot (e ▸ hx)
    simpa using hxs

theorem removeWatchlistItem_spec_witness :
    (removeWatchlistItem "INFY" (App.start ["NIFTY", "TCS"])).watchlist = ["NIFTY", "TCS"] ∧
      (removeWatchlistItem "NIFTY" (App.start ["NIFTY", "TCS"])).watchlist = ["TCS"] :=
  ⟨(removeWatchlistItem_spec "INFY" (App.start ["NIFTY", "TCS"])).2.2.2 (by decide),
    (removeWatchlistItem_spec "NIFTY" (App.start ["NIFTY", "TCS"])).1.trans (by decide)⟩

/-! ## Loading the watchlist -/

/-- The fallback of `initWatchlist` is the demo list of four symbols. -/
theorem defaultWatchlist_symbols :
    defaultWatchlist.symbols? = some ["NIFTY", "BANKNIFTY", "RELIANCE", "TCS"] := by
  rfl

/-- With no stored text, an empty one, or one that `JSON.parse` rejects,
`initWatchlist` returns normally with the demo list. -/
theorem initWatchlist_fallback (parse : String → Option JSValue) (saved : Option String)
    (container : Bool)
    (h : saved = none ∨ saved = some "" ∨ ∃ text, saved = some text ∧ parse text = none) :
    initWatchlist parse saved container = .ok defaultWatchlist := by
  have hload : loadWatchlist parse saved = defaultWatchlist := by
    rcases h with h | h | ⟨text, h, hp⟩
    · simp [loadWatchlist, h]
    · simp [loadWatchlist, h]
    · simp only [loadWatchlist, h, hp]
      split <;> rfl
  unfold initWatchlist
  rw [hload]
  cases container <;> rfl

/-- C6 fails on the stored text `null`: `JSON.parse` accepts it, so the
fallback is not taken, `this.watchlist` becomes `null`, and with the list
container present `renderWatchlist` throws a `TypeError` out of `initWatchlist`. -/
theorem initWatchlist_null_throws (parse : String → Option JSValue)
    (hparse : parse "null" = some JSValue.null) :
    initWatchlist parse (some "null") true = .error "TypeError" ∧
      (loadWatchlist parse (some "null")).symbols? = none := by
  have hload : loadWatchlist parse (some "null") = JSValue.null := by
    simp [loadWatchlist, hparse]
  unfold initWatchlist
  rw [hload]
  exact ⟨rfl, rfl⟩

theorem initWatchlist_null_throws_witness :
    initWatchlist (fun text => if text = "null" then some JSValue.null else none)
        (some "null") true = .error "TypeError" :=
  (initWatchlist_null_throws (fun text => if text = "null" then some JSValue.null else none)
    (by simp)).1

/-! ## Onboarding -/

theorem showNotification_currentStep (t m ty : String) (a : App) :
    (showNotification t m ty a).currentStep = a.currentStep := by
  unfold showNotification
  cases h : a.notifications <;> simp [h]

theorem showNotification_isOnboardingComplete (t m ty : String) (a : App) :
    (showNotification t m ty a).isOnboardingComplete = a.isOnboardingComplete := by
  unfold showNotification
  cases h : a.notifications <;> simp [h]

theorem closeOnboarding_currentStep (a : App) :
    (closeOnboarding a).currentStep = a.currentStep := by
  unfold closeOnboarding
  cases h : a.modalHidden <;> simp

theorem closeOnboarding_isOnboardingComplete (a : App) :
    (closeOnboarding a).isOnboardingComplete = a.isOnboardingComplete := by
  unfold closeOnboarding
  cases h : a.modalHidden <;> simp

theorem nextStep_currentStep (a : App) :
    (nextStep a).currentStep = if a.currentStep < 3 then a.currentStep + 1 else a.currentStep := by
  unfold nextStep
  split
  · rfl
  · simp only [completeOnboarding, showNotification_currentStep, closeOnboarding_currentStep]

theorem nextStep_isOnboardingComplete (a : App) :
    (nextStep a).isOnboardingComplete =
      if a.currentStep < 3 then a.isOnboardingComplete else true := by
  unfold nextStep
  split
  · rfl
  · simp only [completeOnboarding, showNotification_isOnboardingComplete,
      closeOnboarding_isOnboardingComplete]

/-- From any state whose step is at most 3, the completion flag after a
sequence of calls is set exactly when it was set before or the `nextStep`
calls carry the step past 3. -/
theorem runOnboarding_complete (calls : List OnboardingCall) (a : App)
    (hstep : a.currentStep ≤ 3) :
    (runOnboarding calls a).isOnboardingComplete = true ↔
      (a.isOnboardingComplete = true ∨
        4 ≤ a.currentStep + calls.count OnboardingCall.nextStep) := by
  induction calls generalizing a with
  | nil =>
    simp only [runOnboarding, List.foldl_nil, List.count_nil, Nat.add_zero]
    constructor
    · exact Or.inl
    · rintro (h | h)
      · exact h
      · omega
  | cons c rest ih =>
    have hrun : runOnboarding (c :: rest) a = runOnboarding rest (c.run a) := rfl
    rw [hrun]
    cases c with
    | nextStep =>
      have hs := nextStep_currentStep a
      have hc := nextStep_isOnboardingComplete a
      simp only [OnboardingCall.run]
      by_cases hlt : a.currentStep < 3
      · rw [if_pos hlt] at hs hc
        rw [ih (nextStep a) (by omega), hs, hc]
        simp only [List.count_cons_self]
        constructor <;> rintro (h | h)
        · exact Or.inl h
        · exact Or.inr (by omega)
        · exact Or.inl h
        · exact Or.inr (by omega)
      · rw [if_neg hlt] at hs hc
        rw [ih (nextStep a) (by omega), hs, hc]
        simp only [List.count_cons_self]
        constructor
        · intro _
          exact Or.inr (by omega)
        · intro _
          exact Or.inl trivial
    | skipOnboarding =>
      simp only [OnboardingCall.run, skipOnboarding]
      rw [ih (closeOnboarding a) (by rw [closeOnboarding_currentStep]; exact hstep),
        closeOnboarding_currentStep, closeOnboarding_isOnboardingComplete]
      simp [List.count_cons]
    | closeOnboarding =>
      simp only [OnboardingCall.run]
      rw [ih (closeOnboarding a) (by rw [closeOnboarding_currentStep]; exact hstep),
        closeOnboarding_currentStep, closeOnboarding_isOnboardingComplete]
      simp [List.count_cons]

/-- C7: from the initial onboarding state (`currentStep` 1,
`isOnboardingComplete` false), after any finite sequence of calls the flag
`isOnboardingComplete` is true exactly when the sequence contains at least
three `nextStep` calls; `skipOnboarding` changes neither `currentStep` nor
`isOnboardingComplete`. -/
theorem onboarding_complete_iff (calls : List OnboardingCall) (a : App)
    (hstep : a.currentStep = 1) (hflag : a.isOnboardingComplete = false) :
    ((runOnboarding calls a).isOnboardingComplete = true ↔
        3 ≤ calls.count OnboardingCall.nextStep) ∧
      (∀ b : App, (skipOnboarding b).currentStep = b.currentStep ∧
        (skipOnboarding b).isOnboardingComplete = b.isOnboardingComplete) := by
  refine ⟨?_, fun b => ⟨closeOnboarding_currentStep b, closeOnboarding_isOnboardingComplete b⟩⟩
  rw [runOnboarding_complete calls a (by omega), hstep, hflag]
  constructor
  · rintro (h | h)
    · exact absurd h (by decide)
    · omega
  · intro h
    exact Or.inr (by omega)

theorem onboarding_complete_iff_witness :
    (runOnboarding [.nextStep, .skipOnboarding, .nextStep, .nextStep]
        (App.start [])).isOnboardingComplete = true ∧
      (runOnboarding [.nextStep, .skipOnboarding, .nextStep] (App.start [])).isOnboardingComplete
        = false :=
  ⟨(onboarding_complete_iff [.nextStep, .skipOnboarding, .nextStep, .nextStep] (App.start [])
      rfl rfl).1.mpr (by decide),
    by decide⟩

/-- C8: in every state reached from the initial state by `nextStep`,
`skipOnboarding` and `closeOnboarding` calls, `currentStep` lies between 1 and 3. -/
theorem currentStep_range (calls : List OnboardingCall) (a : App) (hstep : a.currentStep = 1) :
    1 ≤ (runOnboarding calls a).currentStep ∧ (runOnboarding calls a).currentStep ≤ 3 := by
  have hgen : ∀ (cs : List OnboardingCall) (b : App), 1 ≤ b.currentStep ∧ b.currentStep ≤ 3 →
      1 ≤ (runOnboarding cs b).currentStep ∧ (runOnboarding cs b).currentStep ≤ 3 := by
    intro cs
    induction cs with
    | nil => exact fun b hb => hb
    | cons c rest ih =>
      intro b hb
      have hrun : runOnboarding (c :: rest) b = runOnboarding rest (c.run b) := rfl
      rw [hrun]
      apply ih
      cases c with
      | nextStep =>
        simp only [OnboardingCall.run, nextStep_currentStep]
        split <;> omega
      | skipOnboarding =>
        simp only [OnboardingCall.run, skipOnboarding, closeOnboarding_currentStep]
        exact hb
      | closeOnboarding =>
        simp only [OnboardingCall.run, closeOnboarding_currentStep]
        exact hb
  exact hgen calls a (by omega)

theorem currentStep_range_witness :
    1 ≤ (runOnboarding [.nextStep, .nextStep, .nextStep, .closeOnboarding, .nextStep]
        (App.start [])).currentStep ∧
      (runOnboarding [.nextStep, .nextStep, .nextStep, .closeOnboarding, .nextStep]
        (App.start [])).currentStep ≤ 3 :=
  currentStep_range [.nextStep, .nextStep, .nextStep, .closeOnboarding, .nextStep]
    (App.start []) rfl

/-! ## Simulated prices -/

/-- The bounds of a clamped value come from `Math.max` and `Math.min` alone:
they hold in every linear order, whatever arithmetic produced the value. -/
theorem clamp_between {α : Type} [LinearOrder α] (lo hi x : α) (h : lo ≤ hi) :
    lo ≤ max lo (min hi x) ∧ max lo (min hi x) ≤ hi :=
  ⟨le_max_left _ _, max_le h (min_le_left _ _)⟩

theorem clamp_bounds (x : ℚ) : 30 ≤ max 30 (min 60 x) ∧ max 30 (min 60 x) ≤ 60 :=
  clamp_between 30 60 x (by norm_num)

/-- The loop of `generateSampleChartData` adds one price per iteration and
only prices between 30 and 60. -/
theorem chartLoop_invariant (timeLabel : Nat → String) (random : Nat → ℚ) (l : List Nat)
    (st : ChartLoop) (hb : ∀ p ∈ st.data.prices, 30 ≤ p ∧ p ≤ 60) :
    (l.foldl (chartStep timeLabel random) st).data.prices.length =
        st.data.prices.length + l.length ∧
      ∀ p ∈ (l.foldl (chartStep timeLabel random) st).data.prices, 30 ≤ p ∧ p ≤ 60 := by
  induction l generalizing st with
  | nil => exact ⟨rfl, hb⟩
  | cons i rest ih =>
    have hb2 : ∀ p ∈ (chartStep timeLabel random st i).data.prices, 30 ≤ p ∧ p ≤ 60 := by
      intro p hp
      simp only [chartStep, List.mem_append, List.mem_singleton] at hp
      rcases hp with hp | hp
      · exact hb p hp
      · rw [hp]
        exact clamp_bounds _
    have h := ih (chartStep timeLabel random st i) hb2
    refine ⟨?_, h.2⟩
    simp only [List.foldl_cons, List.length_cons]
    rw [h.1]
    simp only [chartStep, List.length_append, List.length_singleton]
    omega

/-- C9: for every sequence of random draws (those in [0,1) included),
`generateSampleChartData` returns exactly 50 prices, each between 30 and 60
inclusive; and for every last price and every draw the 1-second simulation
tick replaces the last price by one between 30 and 60 inclusive. -/
theorem simulated_prices_bounded (timeLabel : Nat → String) (random : Nat → ℚ) :
    (generateSampleChartData timeLabel random).prices.length = 50 ∧
      (∀ p ∈ (generateSampleChartData timeLabel random).prices, 30 ≤ p ∧ p ≤ 60) ∧
      (∀ (data : List ℚ) (lastPrice r : ℚ),
        simulationTick (some (data ++ [lastPrice])) r = some (data ++ [tickPrice lastPrice r]) ∧
          30 ≤ tickPrice lastPrice r ∧ tickPrice lastPrice r ≤ 60) := by
  have h := chartLoop_invariant timeLabel random (List.range 50)
    { data := { labels := [], prices := [] }, basePrice := 91 / 2 } (by simp)
  refine ⟨?_, h.2, ?_⟩
  · unfold generateSampleChartData
    rw [h.1]
    simp
  · intro data lastPrice r
    refine ⟨?_, clamp_bounds _⟩
    simp [simulationTick]

/-! ## CSV export -/

theorem data_jsJoin (sep : String) (parts : List String) :
    (jsJoin sep parts).data = List.intercalate sep.data (parts.map String.data) := rfl

/-- Quoting a value adds no newline character. -/
theorem newline_not_mem_csvField (c : Cell) (h : '\n' ∉ c.toText.data) :
    '\n' ∉ (csvField c).data := by
  intro hmem
  simp only [csvField, doubleQuotes, String.data_append, List.mem_append, List.mem_flatMap] at hmem
  rcases hmem with (hmem | ⟨ch, hch, hin⟩) | hmem
  · revert hmem
    decide
  · by_cases hq : ch = '"'
    · rw [if_pos hq] at hin
      revert hin
      decide
    · rw [if_neg hq, List.mem_singleton] at hin
      exact h (hin ▸ hch)
  · revert hmem
    decide

/-- The line of a row of five values names its five quoted fields, comma-separated. -/
theorem csvLine_five (c1 c2 c3 c4 c5 : Cell) :
    csvLine [c1, c2, c3, c4, c5] =
      csvField c1 ++ "," ++ csvField c2 ++ "," ++ csvField c3 ++ "," ++ csvField c4 ++ "," ++
        csvField c5 := by
  apply String.ext
  simp [csvLine, data_jsJoin, List.intercalate, List.intersperse]

/-- Every row read from the table has exactly five values. -/
theorem positionFields_five (row : TableRow) :
    ∃ symbol qty price pnl type, positionFields row = [symbol, qty, price, pnl, type] :=
  ⟨_, _, _, _, _, rfl⟩

theorem newline_not_mem_csvLine (row : TableRow)
    (h : ∀ c ∈ positionFields row, '\n' ∉ c.toText.data) :
    '\n' ∉ (csvLine (positionFields row)).data := by
  obtain ⟨c1, c2, c3, c4, c5, hrow⟩ := positionFields_five row
  rw [hrow] at h ⊢
  rw [csvLine_five]
  have h1 := newline_not_mem_csvField c1 (h c1 (by simp))
  have h2 := newline_not_mem_csvField c2 (h c2 (by simp))
  have h3 := newline_not_mem_csvField c3 (h c3 (by simp))
  have h4 := newline_not_mem_csvField c4 (h c4 (by simp))
  have h5 := newline_not_mem_csvField c5 (h c5 (by simp))
  have hcomma : '\n' ∉ ",".data := by decide
  simp only [String.data_append, List.mem_append]
  tauto

theorem csvLine_csvHeader :
    csvLine csvHeader = "\"Symbol\",\"Qty\",\"Price\",\"P&L\",\"Type\"" := by
  decide

/-- The characters `trim` removes: tab, line feed, vertical tab, form feed,
carriage return, space, no-break space, the Unicode space separators, the line
and paragraph separators and the byte order mark. -/
theorem isJsWhitespace_iff (c : Char) :
    isJsWhitespace c = true ↔
      (c.toNat ∈ [9, 10, 11, 12, 13, 32, 160, 5760, 8232, 8233, 8239, 8287, 12288, 65279] ∨
        (8192 ≤ c.toNat ∧ c.toNat ≤ 8202)) := by
  simp only [isJsWhitespace, Bool.or_eq_true, Bool.and_eq_true, decide_eq_true_eq, List.mem_cons,
    List.mem_singleton, List.not_mem_nil, or_false]
  tauto

/-- What `trim` does: the text is the trimmed text between a run of white
space in front and a run of white space behind, and the trimmed text neither
starts nor ends with white space. -/
theorem jsTrim_spec (s : String) :
    ∃ lead trail : List Char, s.data = lead ++ (jsTrim s).data ++ trail ∧
      (∀ c ∈ lead, isJsWhitespace c = true) ∧ (∀ c ∈ trail, isJsWhitespace c = true) ∧
      (∀ c, (jsTrim s).data.head? = some c → isJsWhitespace c = false) ∧
      (∀ c, (jsTrim s).data.getLast? = some c → isJsWhitespace c = false) := by
  have hmid : (jsTrim s).data =
      (((s.data.dropWhile isJsWhitespace).reverse).dropWhile isJsWhitespace).reverse := rfl
  have hsplit : s.data.dropWhile isJsWhitespace =
      (((s.data.dropWhile isJsWhitespace).reverse).dropWhile isJsWhitespace).reverse ++
        (((s.data.dropWhile isJsWhitespace).reverse).takeWhile isJsWhitespace).reverse := by
    have h := congrArg List.reverse
      (List.takeWhile_append_dropWhile isJsWhitespace (s.data.dropWhile isJsWhitespace).reverse)
    rw [List.reverse_append, List.reverse_reverse] at h
    exact h.symm
  refine ⟨s.data.takeWhile isJsWhitespace,
    (((s.data.dropWhile isJsWhitespace).reverse).takeWhile isJsWhitespace).reverse, ?_, ?_, ?_, ?_, ?_⟩
  · rw [hmid, List.append_assoc, ← hsplit, List.takeWhile_append_dropWhile]
  · exact fun c hc => List.mem_takeWhile_imp hc
  · exact fun c hc => List.mem_takeWhile_imp (List.mem_reverse.mp hc)
  · intro c hc
    rw [hmid] at hc
    have hne : (((s.data.dropWhile isJsWhitespace).reverse).dropWhile isJsWhitespace).reverse
        ≠ [] := by
      intro h
      rw [h] at hc
      simp at hc
    have hhead : (s.data.dropWhile isJsWhitespace).head? = some c := by
      rw [hsplit, List.head?_append_of_ne_nil _ hne]
      exact hc
    have h := List.head?_dropWhile_not isJsWhitespace s.data
    rw [hhead] at h
    exact h
  · intro c hc
    rw [hmid, List.getLast?_reverse] at hc
    have h := List.head?_dropWhile_not isJsWhitespace (s.data.dropWhile isJsWhitespace).reverse
    rw [hc] at h
    exact h

/-- The five values read from a row: the trimmed text of the first `.symbol`
element (of the first matched element when there is none, `undefined` when
nothing matched), the trimmed texts of the second, third and fourth matched
elements (empty where missing) and the `data-type` attribute (empty when absent). -/
theorem positionFields_values (row : TableRow) :
    ∃ symbol qty price pnl type, positionFields row = [symbol, qty, price, pnl, type] ∧
      (∀ el, row.cols.find? (fun e => e.isSymbol) = some el →
        symbol = Cell.str (jsTrim el.textContent)) ∧
      (row.cols.find? (fun e => e.isSymbol) = none →
        ∀ c, row.cols[0]? = some c → symbol = Cell.str (jsTrim c.textContent)) ∧
      (row.cols.find? (fun e => e.isSymbol) = none → row.cols[0]? = none →
        symbol = Cell.undefined) ∧
      (∀ c, row.cols[1]? = some c → qty = Cell.str (jsTrim c.textContent)) ∧
      (row.cols[1]? = none → qty = Cell.str "") ∧
      (∀ c, row.cols[2]? = some c → price = Cell.str (jsTrim c.textContent)) ∧
      (row.cols[2]? = none → price = Cell.str "") ∧
      (∀ c, row.cols[3]? = some c → pnl = Cell.str (jsTrim c.textContent)) ∧
      (row.cols[3]? = none → pnl = Cell.str "") ∧
      (∀ t, row.dataType = some t → type = Cell.str t) ∧
      (row.dataType = none → type = Cell.str "") := by
  refine ⟨_, _, _, _, _, rfl, ?_, ?_, ?_, ?_, ?_, ?_, ?_, ?_, ?_, ?_, ?_⟩
  · intro el h
    simp only [h]
  · intro h c hc
    simp only [h, hc]
  · intro h hc
    simp only [h, hc]
  · intro c hc
    simp only [colText, hc]
  · intro hc
    simp only [colText, hc]
  · intro c hc
    simp only [colText, hc]
  · intro hc
    simp only [colText, hc]
  · intro c hc
    simp only [colText, hc]
  · intro hc
    simp only [colText, hc]
  · intro t ht
    simp only [ht, Option.getD_some]
  · intro ht
    simp only [ht, Option.getD_none]

/-- C10, as stated, fails twice.  One position row whose symbol text runs over
two lines gives a CSV text of three lines instead of two, the second line
holding a single, unterminated field.  And a row whose symbol text is
` NIFTY ` is exported with the field `"NIFTY"`: the text is trimmed, so the
field is not the original value between quotes. -/
theorem exportPositionsCsv_counterexample :
    (newlineLines (exportPositionsCsv [twoLinePosition])).length = 3 ∧
      (newlineLines (exportPositionsCsv [twoLinePosition])).length ≠
        [twoLinePosition].length + 1 ∧
      newlineLines (exportPositionsCsv [twoLinePosition]) =
        ["\"Symbol\",\"Qty\",\"Price\",\"P&L\",\"Type\"", "\"NIFTY",
          "CE\",\"50\",\"45.50\",\"+1,250\",\"CE\""] ∧
      paddedPosition.cols.map (fun e => e.textContent) = [" NIFTY ", "50", "45.50", "+1,250"] ∧
      newlineLines (exportPositionsCsv [paddedPosition]) =
        ["\"Symbol\",\"Qty\",\"Price\",\"P&L\",\"Type\"",
          "\"NIFTY\",\"50\",\"45.50\",\"+1,250\",\"CE\""] ∧
      newlineLines (exportPositionsCsv [paddedPosition]) ≠
        ["\"Symbol\",\"Qty\",\"Price\",\"P&L\",\"Type\"",
          "\" NIFTY \",\"50\",\"45.50\",\"+1,250\",\"CE\""] := by
  refine ⟨?_, ?_, ?_, ?_, ?_, ?_⟩ <;> decide

/-- C10, amended: for every list of n position rows whose values contain no
newline character, the CSV text built by `exportPositionsCsv` has exactly n+1
lines separated by newline characters, the first being the five quoted header
names; the line of each row is its five fields joined by commas, and every
field is the value read from the row wrapped in double quotes with each
internal double-quote character doubled.  The values read are: the trimmed
text of the row's first `.symbol` element, or of its first matched element
when it has none, or `undefined` when nothing matched; the trimmed texts of
its second, third and fourth matched elements (quantity, price, P&L), empty
where such an element is missing; and the `data-type` attribute, empty when
absent.  Trimming removes the white space in front of and behind the text. -/
theorem exportPositionsCsv_lines (positionRows : List TableRow)
    (hnl : ∀ row ∈ positionRows, ∀ c ∈ positionFields row, '\n' ∉ c.toText.data) :
    newlineLines (exportPositionsCsv positionRows) =
        "\"Symbol\",\"Qty\",\"Price\",\"P&L\",\"Type\"" ::
          positionRows.map (fun row => csvLine (positionFields row)) ∧
      (newlineLines (exportPositionsCsv positionRows)).length = positionRows.length + 1 ∧
      (∀ row ∈ positionRows, ∃ symbol qty price pnl type,
        positionFields row = [symbol, qty, price, pnl, type] ∧
        csvLine (positionFields row) =
          csvField symbol ++ "," ++ csvField qty ++ "," ++ csvField price ++ "," ++
            csvField pnl ++ "," ++ csvField type ∧
        (∀ el, row.cols.find? (fun e => e.isSymbol) = some el →
          symbol = Cell.str (jsTrim el.textContent)) ∧
        (row.cols.find? (fun e => e.isSymbol) = none →
          ∀ c, row.cols[0]? = some c → symbol = Cell.str (jsTrim c.textContent)) ∧
        (row.cols.find? (fun e => e.isSymbol) = none → row.cols[0]? = none →
          symbol = Cell.undefined) ∧
        (∀ c, row.cols[1]? = some c → qty = Cell.str (jsTrim c.textContent)) ∧
        (row.cols[1]? = none → qty = Cell.str "") ∧
        (∀ c, row.cols[2]? = some c → price = Cell.str (jsTrim c.textContent)) ∧
        (row.cols[2]? = none → price = Cell.str "") ∧
        (∀ c, row.cols[3]? = some c → pnl = Cell.str (jsTrim c.textContent)) ∧
        (row.cols[3]? = none → pnl = Cell.str "") ∧
        (∀ t, row.dataType = some t → type = Cell.str t) ∧
        (row.dataType = none → type = Cell.str "")) ∧
      (∀ s : String, csvField (Cell.str s) =
        "\"" ++ String.mk (s.data.flatMap (fun ch => if ch = '"' then ['"', '"'] else [ch]))
          ++ "\"") ∧
      csvField Cell.undefined = "\"undefined\"" ∧
      (∀ s : String, ∃ lead trail : List Char, s.data = lead ++ (jsTrim s).data ++ trail ∧
        (∀ c ∈ lead, isJsWhitespace c = true) ∧ (∀ c ∈ trail, isJsWhitespace c = true) ∧
        (∀ c, (jsTrim s).data.head? = some c → isJsWhitespace c = false) ∧
        (∀ c, (jsTrim s).data.getLast? = some c → isJsWhitespace c = false)) ∧
      (∀ c : Char, isJsWhitespace c = true ↔
        (c.toNat ∈ [9, 10, 11, 12, 13, 32, 160, 5760, 8232, 8233, 8239, 8287, 12288, 65279] ∨
          (8192 ≤ c.toNat ∧ c.toNat ≤ 8202))) := by
  have hlines : newlineLines (exportPositionsCsv positionRows) =
      (csvRows positionRows).map csvLine := by
    unfold newlineLines exportPositionsCsv csvText
    rw [data_jsJoin]
    have hsep : "\n".data = ['\n'] := rfl
    rw [hsep, List.splitOn_intercalate]
    · rw [List.map_map]
      exact (List.map_congr_left (fun x _ => rfl)).trans (List.map_id _)
    · intro l hl
      simp only [List.mem_map, csvRows, List.mem_cons, exists_exists_and_eq_and] at hl
      obtain ⟨r, hr, rfl⟩ := hl
      rcases hr with hr | ⟨row, hrow, hr⟩
      · rw [hr, csvLine_csvHeader]
        decide
      · rw [← hr]
        exact newline_not_mem_csvLine row (hnl row hrow)
    · simp [csvRows]
  have hrows : (csvRows positionRows).map csvLine =
      "\"Symbol\",\"Qty\",\"Price\",\"P&L\",\"Type\"" ::
        positionRows.map (fun row => csvLine (positionFields row)) := by
    simp only [csvRows, List.map_cons, List.map_map, csvLine_csvHeader]
    rfl
  refine ⟨hlines.trans hrows, ?_, ?_, fun s => rfl, by decide, jsTrim_spec, isJsWhitespace_iff⟩
  · rw [hlines, hrows]
    simp
  · intro row _
    obtain ⟨c1, c2, c3, c4, c5, hrow, hvals⟩ := positionFields_values row
    exact ⟨c1, c2, c3, c4, c5, hrow, by rw [hrow, csvLine_five], hvals⟩

theorem exportPositionsCsv_lines_witness :
    newlineLines (exportPositionsCsv
        [samplePosition, quotedPosition, badgePosition, plainPosition, bareRow]) =
      ["\"Symbol\",\"Qty\",\"Price\",\"P&L\",\"Type\"",
        "\"NIFTY23DEC21000CE\",\"50\",\"45.50\",\"+1,250\",\"CE\"",
        "\"the \"\"x\"\" leg\",\"25\",\"89.20\",\"-340\",\"PE\"",
        "\"BANKNIFTY\",\"BANKNIFTY\",\"25\",\"89.20\",\"\"",
        "\"TCS\",\"1\",\"\",\"\",\"CE\"",
        "\"undefined\",\"\",\"\",\"\",\"\""] :=
  (exportPositionsCsv_lines [samplePosition, quotedPosition, badgePosition, plainPosition, bareRow]
    (by decide)).1.trans (by decide)

/-! ## Tabs -/

/-- The two loops of `showTab` on one element keep its identifier and its
`tab-content` class. -/
theorem showTab_loops_keep (toLowerCase : String → String) (tabName : String) (x : Element) :
    let y := if x.isTab = true then activateTab toLowerCase tabName x else x
    let z := if y.isTabContent = true then { y with hidden := true } else y
    z.id = x.id ∧ z.isTabContent = x.isTabContent ∧ (z.isTabContent = true → z.hidden = true) := by
  by_cases ht : x.isTab = true <;> by_cases hl : toLowerCase x.textContent = tabName <;>
    by_cases hc : x.isTabContent = true <;> simp [activateTab, ht, hl, hc]

theorem removeHiddenById_length (name : String) (els : List Element) :
    (removeHiddenById name els).length = els.length := by
  induction els with
  | nil => rfl
  | cons e rest ih =>
    simp only [removeHiddenById]
    split <;> simp [ih]

/-- Un-hiding the target changes no label, no `tab` class and no `active` class. -/
theorem removeHiddenById_tabs (name : String) (els : List Element) :
    (removeHiddenById name els).map (fun e => (e.isTab, e.textContent, e.active)) =
      els.map (fun e => (e.isTab, e.textContent, e.active)) := by
  induction els with
  | nil => rfl
  | cons e rest ih =>
    simp only [removeHiddenById]
    split
    · simp
    · simp [ih]

/-- On a list whose panels are all hidden and whose identifiers are unique,
un-hiding the element called `name` shows exactly the panel called `name`. -/
theorem removeHiddenById_visible (name : String) (els : List Element)
    (hhid : ∀ e ∈ els, e.isTabContent = true → e.hidden = true)
    (huniq : (els.filterMap (fun e => e.id)).Nodup)
    (hpanel : ∃ e ∈ els, e.isTabContent = true ∧ e.id = some name) :
    ∃ e, (removeHiddenById name els).filter (fun e => e.isTabContent && !e.hidden) = [e] ∧
      e.id = some name ∧ e.isTabContent = true ∧ e.hidden = false := by
  induction els with
  | nil =>
    obtain ⟨e, he, _⟩ := hpanel
    simp at he
  | cons x rest ih =>
    have hrest : ∀ e ∈ rest, e.isTabContent = true → e.hidden = true :=
      fun e he => hhid e (List.mem_cons_of_mem _ he)
    have hnone : rest.filter (fun e => e.isTabContent && !e.hidden) = [] := by
      rw [List.filter_eq_nil_iff]
      intro e he
      by_cases hc : e.isTabContent = true
      · simp [hc, hrest e he hc]
      · simp [hc]
    by_cases hx : x.id = some name
    · have hxc : x.isTabContent = true := by
        obtain ⟨e, he, hec, hei⟩ := hpanel
        rcases List.mem_cons.mp he with h | h
        · rw [← h]
          exact hec
        · exfalso
          rw [List.filterMap_cons, hx] at huniq
          have hmem : name ∈ rest.filterMap (fun e => e.id) :=
            List.mem_filterMap.mpr ⟨e, h, hei⟩
          exact (List.nodup_cons.mp huniq).1 hmem
      refine ⟨{ x with hidden := false }, ?_, hx, hxc, rfl⟩
      simp only [removeHiddenById, if_pos hx]
      rw [List.filter_cons]
      simp [hxc, hnone]
    · have huniq2 : (rest.filterMap (fun e => e.id)).Nodup := by
        rw [List.filterMap_cons] at huniq
        cases hid : x.id with
        | none =>
          rw [hid] at huniq
          exact huniq
        | some i =>
          rw [hid] at huniq
          exact (List.nodup_cons.mp huniq).2
      have hpanel2 : ∃ e ∈ rest, e.isTabContent = true ∧ e.id = some name := by
        obtain ⟨e, he, hec, hei⟩ := hpanel
        rcases List.mem_cons.mp he with h | h
        · exact absurd (h ▸ hei) hx
        · exact ⟨e, h, hec, hei⟩
      obtain ⟨e, hfe, hprops⟩ := ih hrest huniq2 hpanel2
      refine ⟨e, ?_, hprops⟩
      simp only [removeHiddenById, if_neg hx]
      rw [List.filter_cons]
      by_cases hc : x.isTabContent = true
      · simp [hc, hhid x (List.mem_cons_self _ _) hc, hfe]
      · simp [hc, hfe]

/-- C11: on a page whose element identifiers are unique, for a tab name that
is the identifier of a tab-content panel, after `showTab` exactly one
tab-content panel is visible, it is the panel with that identifier, and
`currentTab` equals the name. -/
theorem showTab_one_panel (toLowerCase : String → String) (tabName : String) (v : TabView)
    (huniq : (v.elements.filterMap (fun e => e.id)).Nodup)
    (hpanel : ∃ e ∈ v.elements, e.isTabContent = true ∧ e.id = some tabName) :
    (∃ e, visiblePanels (showTab toLowerCase tabName v) = [e] ∧ e.id = some tabName ∧
        e.isTabContent = true ∧ e.hidden = false) ∧
      (showTab toLowerCase tabName v).currentTab = tabName := by
  refine ⟨?_, rfl⟩
  unfold visiblePanels showTab
  simp only [List.map_map]
  apply removeHiddenById_visible
  · intro e he hc
    simp only [List.mem_map, Function.comp_apply] at he
    obtain ⟨x, _, rfl⟩ := he
    exact (showTab_loops_keep toLowerCase tabName x).2.2 hc
  · have hids : (v.elements.map ((fun e => if e.isTabContent = true then { e with hidden := true }
          else e) ∘ fun e => if e.isTab = true then activateTab toLowerCase tabName e
          else e)).filterMap (fun e => e.id) = v.elements.filterMap (fun e => e.id) := by
      rw [List.filterMap_map]
      apply List.filterMap_congr
      intro x _
      exact (showTab_loops_keep toLowerCase tabName x).1
    rw [hids]
    exact huniq
  · obtain ⟨e, he, hec, hei⟩ := hpanel
    refine ⟨_, List.mem_map.mpr ⟨e, he, rfl⟩, ?_, ?_⟩
    · exact ((showTab_loops_keep toLowerCase tabName e).2.1).trans hec
    · exact ((showTab_loops_keep toLowerCase tabName e).1).trans hei

theorem showTab_one_panel_witness :
    (∃ e, visiblePanels (showTab asciiLowerCase "orders" sampleTabs) = [e] ∧
        e.id = some "orders" ∧ e.isTabContent = true ∧ e.hidden = false) ∧
      (showTab asciiLowerCase "orders" sampleTabs).currentTab = "orders" :=
  showTab_one_panel asciiLowerCase "orders" sampleTabs (by decide) (by decide)

/-- Un-hiding the target changes no label and no `tab` class. -/
theorem removeHiddenById_labels (name : String) (els : List Element) :
    (removeHiddenById name els).map (fun e => (e.isTab, e.textContent)) =
      els.map (fun e => (e.isTab, e.textContent)) := by
  induction els with
  | nil => rfl
  | cons e rest ih =>
    simp only [removeHiddenById]
    split
    · simp
    · simp [ih]

/-- The two loops of `showTab` on one element keep its `tab` class and its
label, and leave a tab active exactly when its lower-cased label is the name. -/
theorem showTab_loops_tab (toLowerCase : String → String) (tabName : String) (x : Element) :
    let y := if x.isTab = true then activateTab toLowerCase tabName x else x
    let z := if y.isTabContent = true then { y with hidden := true } else y
    z.isTab = x.isTab ∧ z.textContent = x.textContent ∧
      (x.isTab = true → (z.active = true ↔ toLowerCase x.textContent = tabName)) := by
  by_cases ht : x.isTab = true <;> by_cases hl : toLowerCase x.textContent = tabName <;>
    by_cases hc : x.isTabContent = true <;> simp [activateTab, ht, hl, hc]

/-- Every element left by `showTab` comes from an element of the page with
the same `tab` class and label, and as a tab it is active exactly when its
lower-cased label is the name. -/
theorem showTab_elements (toLowerCase : String → String) (tabName : String) (v : TabView)
    (e : Element) (he : e ∈ (showTab toLowerCase tabName v).elements) :
    (∃ x ∈ v.elements, x.isTab = e.isTab ∧ x.textContent = e.textContent) ∧
      (e.isTab = true → (e.active = true ↔ toLowerCase e.textContent = tabName)) := by
  have hmem : (e.isTab, e.textContent, e.active) ∈
      (showTab toLowerCase tabName v).elements.map (fun e => (e.isTab, e.textContent, e.active)) :=
    List.mem_map.mpr ⟨e, he, rfl⟩
  unfold showTab at hmem
  simp only [removeHiddenById_tabs, List.map_map, List.mem_map, Function.comp_apply,
    Prod.mk.injEq] at hmem
  obtain ⟨x, hx, h1, h2, h3⟩ := hmem
  have hk := showTab_loops_tab toLowerCase tabName x
  simp only at hk
  rw [h1, h2, h3] at hk
  refine ⟨⟨x, hx, hk.1.symm, hk.2.1.symm⟩, ?_⟩
  intro ht
  rw [hk.2.1]
  exact hk.2.2 (hk.1 ▸ ht)

/-- C12, as stated, fails: after `showTab("Orders")` the tab labelled `Orders`
is not active, although its label equals the name, whatever the letter case:
the code lower-cases the label only. -/
theorem showTab_case_counterexample :
    asciiLowerCase "Orders" = asciiLowerCase "Orders" ∧
      (⟨none, true, false, false, false, "Orders"⟩ : Element) ∈
        (showTab asciiLowerCase "Orders" sampleTabs).elements ∧
      (∀ e ∈ (showTab asciiLowerCase "Orders" sampleTabs).elements,
        e.isTab = true → e.active = false) := by
  refine ⟨rfl, ?_, ?_⟩ <;> decide

/-- C12, amended: for every page and every name passed to `showTab`, after the
call a tab is active exactly when its lower-cased label equals the name as
passed; for a name that lower-casing leaves unchanged this is exactly when the
label equals the name ignoring letter case.  The tabs and their labels are
those of the page. -/
theorem showTab_active_iff (toLowerCase : String → String) (tabName : String) (v : TabView) :
    (showTab toLowerCase tabName v).elements.map (fun e => (e.isTab, e.textContent)) =
        v.elements.map (fun e => (e.isTab, e.textContent)) ∧
      (∀ e ∈ (showTab toLowerCase tabName v).elements, e.isTab = true →
        (e.active = true ↔ toLowerCase e.textContent = tabName)) ∧
      (toLowerCase tabName = tabName →
        ∀ e ∈ (showTab toLowerCase tabName v).elements, e.isTab = true →
          (e.active = true ↔ toLowerCase e.textContent = toLowerCase tabName)) := by
  refine ⟨?_, fun e he => (showTab_elements toLowerCase tabName v e he).2, ?_⟩
  · unfold showTab
    simp only [removeHiddenById_labels, List.map_map]
    apply List.map_congr_left
    intro x _
    have hk := showTab_loops_tab toLowerCase tabName x
    simp only at hk
    simp only [Function.comp_apply, hk.1, hk.2.1]
  · intro hname e he ht
    rw [hname]
    exact (showTab_elements toLowerCase tabName v e he).2 ht

theorem showTab_active_iff_witness :
    ∀ e ∈ (showTab asciiLowerCase "orders" sampleTabs).elements, e.isTab = true →
      (e.active = true ↔ asciiLowerCase e.textContent = asciiLowerCase "orders") :=
  (showTab_active_iff asciiLowerCase "orders" sampleTabs).2.2 (by decide)

/-! ## Guided tour -/

/-- Within the four steps `showStep` finds its step: it returns normally,
sets the index and leaves the overlay as it is. -/
theorem showStep_some (rect : String → Option (ℚ × ℚ)) (i : Nat) (t : Tour) (hi : i ≤ 3) :
    ∃ t2, showStep rect i t = some t2 ∧ t2.idx = i ∧ t2.overlay = t.overlay := by
  have hstep : ∃ step, tourSteps[i]? = some step := by
    interval_cases i <;> exact ⟨_, rfl⟩
  obtain ⟨step, hs⟩ := hstep
  unfold showStep
  rw [hs]
  exact ⟨_, rfl, rfl, rfl⟩

theorem endTour_idx (t : Tour) : (endTour t).idx = t.idx := by
  unfold endTour
  split <;> rfl

theorem endTour_overlay (t : Tour) : (endTour t).overlay = false := by
  unfold endTour
  by_cases h : t.overlay = true
  · simp [h]
  · simp [h]

/-- Every click handler returns normally from an index within 0..3 and leaves
the index within 0..3. -/
theorem TourClick.run_idx (rect : String → Option (ℚ × ℚ)) (c : TourClick) (t : Tour)
    (hi : t.idx ≤ 3) : ∃ t2, c.run rect t = some t2 ∧ t2.idx ≤ 3 := by
  have hlen : tourSteps.length - 1 = 3 := rfl
  cases c with
  | next =>
    simp only [TourClick.run, hlen]
    by_cases hlt : t.idx < 3
    · obtain ⟨t2, h2, hidx, _⟩ := showStep_some rect (t.idx + 1) t (by omega)
      exact ⟨t2, by rw [if_pos hlt]; exact h2, by omega⟩
    · exact ⟨endTour t, by rw [if_neg hlt], by rw [endTour_idx]; exact hi⟩
  | prev =>
    simp only [TourClick.run]
    by_cases hpos : t.idx > 0
    · obtain ⟨t2, h2, hidx, _⟩ := showStep_some rect (t.idx - 1) t (by omega)
      exact ⟨t2, by rw [if_pos hpos]; exact h2, by omega⟩
    · exact ⟨t, by rw [if_neg hpos], hi⟩
  | close => exact ⟨endTour t, rfl, by rw [endTour_idx]; exact hi⟩

/-- A run of clicks from an index within 0..3 returns normally with an index within 0..3. -/
theorem runTour_idx (rect : String → Option (ℚ × ℚ)) (clicks : List TourClick) (t : Tour)
    (hi : t.idx ≤ 3) : ∃ t2, runTour rect clicks t = some t2 ∧ t2.idx ≤ 3 := by
  induction clicks generalizing t with
  | nil => exact ⟨t, rfl, hi⟩
  | cons c rest ih =>
    obtain ⟨t1, h1, hi1⟩ := TourClick.run_idx rect c t hi
    obtain ⟨t2, h2, hi2⟩ := ih t1 hi1
    exact ⟨t2, by simp only [runTour, h1, h2], hi2⟩

/-- C13: the tour starts open at index 0; after every sequence of Next, Prev
and Close clicks the run has raised no error and the index is within 0..3, so
the step lookup stays inside the four fixed steps; Next at index 3 closes the
tour and otherwise increases the index by one; Prev at index 0 changes nothing
and otherwise decreases the index by one; Close closes the tour from any index. -/
theorem tour_index_range (rect : String → Option (ℚ × ℚ)) (clicks : List TourClick) :
    (∃ t0, startTour rect = some t0 ∧ t0.idx = 0 ∧ t0.overlay = true ∧
      ∃ t, runTour rect clicks t0 = some t ∧ t.idx ≤ 3 ∧ ∃ step, tourSteps[t.idx]? = some step) ∧
    (∀ t : Tour, t.idx ≤ 3 →
      (t.idx = 3 → TourClick.next.run rect t = some (endTour t)) ∧
      (t.idx < 3 → ∃ t2, TourClick.next.run rect t = some t2 ∧ t2.idx = t.idx + 1 ∧
        t2.overlay = t.overlay) ∧
      (t.idx = 0 → TourClick.prev.run rect t = some t) ∧
      (0 < t.idx → ∃ t2, TourClick.prev.run rect t = some t2 ∧ t2.idx = t.idx - 1 ∧
        t2.overlay = t.overlay) ∧
      TourClick.close.run rect t = some (endTour t) ∧
      (endTour t).overlay = false ∧ (endTour t).idx = t.idx) := by
  have hlen : tourSteps.length - 1 = 3 := rfl
  constructor
  · obtain ⟨t0, h0, hidx, hov⟩ :=
      showStep_some rect 0 { idx := 0, overlay := true, tourText := "", card := CardPlace.unset }
        (by omega)
    obtain ⟨t, ht, hi⟩ := runTour_idx rect clicks t0 (by omega)
    refine ⟨t0, h0, hidx, hov, t, ht, hi, ?_⟩
    have hcases : t.idx = 0 ∨ t.idx = 1 ∨ t.idx = 2 ∨ t.idx = 3 := by omega
    rcases hcases with h | h | h | h <;> rw [h] <;> exact ⟨_, rfl⟩
  · intro t hi
    refine ⟨?_, ?_, ?_, ?_, rfl, endTour_overlay t, endTour_idx t⟩
    · intro h3
      simp only [TourClick.run, hlen]
      rw [if_neg (by omega)]
    · intro hlt
      simp only [TourClick.run, hlen]
      rw [if_pos hlt]
      exact showStep_some rect (t.idx + 1) t (by omega)
    · intro h0
      simp only [TourClick.run]
      rw [if_neg (by omega)]
    · intro hpos
      simp only [TourClick.run]
      rw [if_pos hpos]
      exact showStep_some rect (t.idx - 1) t (by omega)

theorem tour_index_range_witness :
    ∃ t0, startTour (fun _ => none) = some t0 ∧ t0.idx = 0 ∧ t0.overlay = true ∧
      ∃ t, runTour (fun _ => none) [.next, .prev, .prev, .next, .next, .next, .next] t0 = some t ∧
        t.idx ≤ 3 ∧ ∃ step, tourSteps[t.idx]? = some step :=
  (tour_index_range (fun _ => none) [.next, .prev, .prev, .next, .next, .next, .next]).1

/-! ## Notifications over time -/

/-- Running timer callbacks removes the targeted nodes and touches nothing else. -/
theorem foldl_removeNotification (ts : List Timer) (a : App) :
    (ts.foldl (fun st tm => removeNotification tm.target st) a).notifications =
        a.notifications.map
          (fun ns => ns.filter (fun m => ts.all (fun tm => decide (m.id ≠ tm.target)))) ∧
      (ts.foldl (fun st tm => removeNotification tm.target st) a).timers = a.timers ∧
      (ts.foldl (fun st tm => removeNotification tm.target st) a).now = a.now ∧
      (ts.foldl (fun st tm => removeNotification tm.target st) a).nextId = a.nextId := by
  induction ts generalizing a with
  | nil =>
    refine ⟨?_, rfl, rfl, rfl⟩
    cases h : a.notifications <;> simp [h]
  | cons tm rest ih =>
    have h := ih (removeNotification tm.target a)
    simp only [List.foldl_cons]
    refine ⟨?_, h.2.1, h.2.2.1, h.2.2.2⟩
    rw [h.1]
    cases hn : a.notifications with
    | none => simp [removeNotification, hn]
    | some ns =>
      simp only [removeNotification, hn, Option.map_some', List.filter_filter, List.all_cons]
      congr 1
      apply List.filter_congr
      intro m _
      rw [Bool.and_comm]

/-- The state after time has passed until `t`. -/
theorem advanceTo_fields (t : Nat) (a : App) :
    (advanceTo t a).notifications =
        a.notifications.map (fun ns => ns.filter (fun m =>
          (a.timers.filter (fun tm => tm.due ≤ t)).all (fun tm => decide (m.id ≠ tm.target)))) ∧
      (advanceTo t a).timers = a.timers.filter (fun tm => ¬ tm.due ≤ t) ∧
      (advanceTo t a).now = max a.now t ∧
      (advanceTo t a).nextId = a.nextId := by
  have h := foldl_removeNotification (a.timers.filter (fun tm => tm.due ≤ t)) a
  unfold advanceTo
  simp only [h.1, h.2.1, h.2.2.1, h.2.2.2]
  exact ⟨trivial, trivial, trivial, trivial⟩

theorem showNotification_fields (t m ty : String) (a : App) (ns : List Notification)
    (h : a.notifications = some ns) :
    (showNotification t m ty a).timers = a.timers ++ [{ due := a.now + 5000, target := a.nextId }] ∧
      (showNotification t m ty a).now = a.now ∧
      (showNotification t m ty a).nextId = a.nextId + 1 := by
  unfold showNotification
  simp [h]

theorem showNotification_now (t m ty : String) (a : App) :
    (showNotification t m ty a).now = a.now := by
  unfold showNotification
  cases h : a.notifications <;> simp [h]

/-- A further `showNotification` call keeps the node tracked, with one more
node allowed after it. -/
theorem Tracked.push (n : Notification) (due k : Nat) (b : App) (t m ty : String)
    (h : Tracked n due k b) : Tracked n due (k + 1) (showNotification t m ty b) := by
  obtain ⟨hid, halive, hdead⟩ := h
  by_cases hb : b.now < due
  · obtain ⟨pre, post, hl, hk, hpre, hpost, htm, hdue⟩ := halive hb
    have hf := showNotification_fields t m ty b _ hl
    have hn := showNotification_notifications t m ty b _ hl
    refine ⟨by rw [hf.2.2]; omega, ?_, ?_⟩
    · intro _
      refine ⟨pre, post ++ [{ id := b.nextId, title := t, message := m, type := ty }], ?_, ?_,
        hpre, ?_, ?_, ?_⟩
      · rw [hn]
        simp
      · simp only [List.length_append, List.length_singleton]
        omega
      · intro x hx
        rcases List.mem_append.mp hx with hx | hx
        · exact hpost x hx
        · rw [List.mem_singleton.mp hx]
          simp only
          omega
      · rw [hf.1]
        exact List.mem_append_left _ htm
      · intro tm htm2 htarget
        rw [hf.1] at htm2
        rcases List.mem_append.mp htm2 with h2 | h2
        · exact hdue tm h2 htarget
        · rw [List.mem_singleton.mp h2] at htarget
          simp only at htarget
          omega
    · intro hnow
      rw [hf.2.1] at hnow
      omega
  · obtain ⟨l, hl, hnl⟩ := hdead (not_lt.mp hb)
    have hf := showNotification_fields t m ty b _ hl
    have hn := showNotification_notifications t m ty b _ hl
    refine ⟨by rw [hf.2.2]; omega, ?_, ?_⟩
    · intro hnow
      rw [hf.2.1] at hnow
      exact absurd hnow hb
    · intro _
      refine ⟨_, hn, ?_⟩
      intro hmem
      rcases List.mem_append.mp hmem with h2 | h2
      · exact hnl h2
      · have hidn := congrArg Notification.id (List.mem_singleton.mp h2)
        simp only at hidn
        omega

/-- The passing of time keeps the node tracked: before its due time only
other nodes are removed, and at its due time it is removed. -/
theorem Tracked.wait (n : Notification) (due k : Nat) (b : App) (t : Nat)
    (h : Tracked n due k b) : Tracked n due k (advanceTo t b) := by
  obtain ⟨hid, halive, hdead⟩ := h
  have hf := advanceTo_fields t b
  refine ⟨by rw [hf.2.2.2]; exact hid, ?_, ?_⟩
  · intro hnow
    rw [hf.2.2.1] at hnow
    have hb : b.now < due := lt_of_le_of_lt (le_max_left _ _) hnow
    have ht : t < due := lt_of_le_of_lt (le_max_right _ _) hnow
    obtain ⟨pre, post, hl, hk, hpre, hpost, htm, hdue⟩ := halive hb
    have hkeep : (b.timers.filter (fun tm => tm.due ≤ t)).all
        (fun tm => decide (n.id ≠ tm.target)) = true := by
      rw [List.all_eq_true]
      intro tm htm2
      have hmem := List.mem_filter.mp htm2
      have hle : tm.due ≤ t := by simpa using hmem.2
      have hne : n.id ≠ tm.target := by
        intro heq
        have := hdue tm hmem.1 heq.symm
        omega
      simpa using hne
    refine ⟨pre.filter (fun m => (b.timers.filter (fun tm => tm.due ≤ t)).all
        (fun tm => decide (m.id ≠ tm.target))),
      post.filter (fun m => (b.timers.filter (fun tm => tm.due ≤ t)).all
        (fun tm => decide (m.id ≠ tm.target))), ?_,
      le_trans (List.length_filter_le _ _) hk,
      fun x hx => hpre x (List.mem_of_mem_filter hx),
      fun x hx => hpost x (List.mem_of_mem_filter hx), ?_, ?_⟩
    · rw [hf.1, hl]
      simp only [Option.map_some', List.filter_append, List.filter_cons, hkeep, if_true]
    · rw [hf.2.1]
      exact List.mem_filter.mpr ⟨htm, by simpa using ht⟩
    · intro tm htm2
      rw [hf.2.1] at htm2
      exact hdue tm (List.mem_of_mem_filter htm2)
  · intro hnow
    rw [hf.2.2.1] at hnow
    by_cases hb : b.now < due
    · obtain ⟨pre, post, hl, _, _, _, htm, _⟩ := halive hb
      have ht : due ≤ t := by
        rcases le_max_iff.mp hnow with h1 | h1
        · omega
        · exact h1
      refine ⟨_, by rw [hf.1, hl]; rfl, ?_⟩
      intro hmem
      have hall := (List.mem_filter.mp hmem).2
      rw [List.all_eq_true] at hall
      have hfired : (⟨due, n.id⟩ : Timer) ∈ b.timers.filter (fun tm => tm.due ≤ t) :=
        List.mem_filter.mpr ⟨htm, by simpa using ht⟩
      have := hall _ hfired
      simp at this
    · obtain ⟨l, hl, hnl⟩ := hdead (not_lt.mp hb)
      exact ⟨_, by rw [hf.1, hl]; rfl, fun hmem => hnl (List.mem_of_mem_filter hmem)⟩

/-- Any sequence of events keeps the node tracked, with as many more nodes
allowed after it as there are `showNotification` calls. -/
theorem Tracked.run (n : Notification) (due : Nat) (evs : List NotifEvent) (k : Nat) (b : App)
    (h : Tracked n due k b) : Tracked n due (k + pushCount evs) (runNotifEvents evs b) := by
  induction evs generalizing k b with
  | nil => exact h
  | cons e rest ih =>
    have hrun : runNotifEvents (e :: rest) b = runNotifEvents rest (e.run b) := rfl
    rw [hrun]
    cases e with
    | push t m ty =>
      have h2 := ih (k + 1) _ (Tracked.push n due k b t m ty h)
      have hc : pushCount (NotifEvent.push t m ty :: rest) = pushCount rest + 1 := by
        simp [pushCount]
      rw [hc]
      have hk : k + (pushCount rest + 1) = k + 1 + pushCount rest := by omega
      rw [hk]
      exact h2
    | wait t =>
      have h2 := ih k _ (Tracked.wait n due k b t h)
      have hc : pushCount (NotifEvent.wait t :: rest) = pushCount rest := by
        simp [pushCount]
      rw [hc]
      exact h2

/-- Time never runs backwards. -/
theorem runNotifEvents_now (evs : List NotifEvent) (b : App) :
    b.now ≤ (runNotifEvents evs b).now := by
  induction evs generalizing b with
  | nil => exact le_refl _
  | cons e rest ih =>
    have hrun : runNotifEvents (e :: rest) b = runNotifEvents rest (e.run b) := rfl
    rw [hrun]
    refine le_trans ?_ (ih _)
    cases e with
    | push t m ty => exact le_of_eq (showNotification_now t m ty b).symm
    | wait t =>
      simp only [NotifEvent.run, (advanceTo_fields t b).2.2.1]
      exact le_max_left _ _

/-- C14, as stated, fails: a notification shown at time 0 is no longer the
last element of the list at time 2000, once a second notification has been
shown then (as `quickTrade` does with its delayed follow-up). -/
theorem notification_last_counterexample :
    (runNotifEvents [.wait 2000, .push "Order Executed" "done" "success"]
        (showNotification "BUY Order Placed" "queued" "success" (App.start []))).now = 2000 ∧
      (runNotifEvents [.wait 2000, .push "Order Executed" "done" "success"]
        (showNotification "BUY Order Placed" "queued" "success" (App.start []))).notifications =
        some [⟨0, "BUY Order Placed", "queued", "success"⟩,
          ⟨1, "Order Executed", "done", "success"⟩] ∧
      ((runNotifEvents [.wait 2000, .push "Order Executed" "done" "success"]
        (showNotification "BUY Order Placed" "queued" "success"
          (App.start []))).notifications.bind List.getLast?) ≠
        some ⟨0, "BUY Order Placed", "queued", "success"⟩ := by
  refine ⟨?_, ?_, ?_⟩ <;> decide

/-- C14, amended: for every notification list and every `showNotification`
call made at time t with the container present, whatever calls and waiting
follow, the new notification is in the list at every time from t up to but not
including t + 5000 ms, after the notifications that were there and before
those shown later (so it is the last element as long as no later one is
shown), and it is absent from the list from t + 5000 ms on; its removal leaves
every other notification in the list untouched.  Time is the clock of the
timers, which run exactly when due; node identities are fresh. -/
theorem notification_lifetime (a : App) (ns : List Notification) (title message type : String)
    (evs : List NotifEvent) (hc : a.notifications = some ns)
    (hids : ∀ m ∈ ns, m.id < a.nextId) (htm : ∀ tm ∈ a.timers, tm.target < a.nextId) :
    (showNotification title message type a).notifications =
        some (ns ++ [⟨a.nextId, title, message, type⟩]) ∧
      a.now ≤ (runNotifEvents evs (showNotification title message type a)).now ∧
      ((runNotifEvents evs (showNotification title message type a)).now < a.now + 5000 →
        ∃ pre post,
          (runNotifEvents evs (showNotification title message type a)).notifications =
            some (pre ++ ⟨a.nextId, title, message, type⟩ :: post) ∧
          post.length ≤ pushCount evs ∧
          (removeNotification a.nextId
            (runNotifEvents evs (showNotification title message type a))).notifications =
            some (pre ++ post)) ∧
      (a.now + 5000 ≤ (runNotifEvents evs (showNotification title message type a)).now →
        ∃ l, (runNotifEvents evs (showNotification title message type a)).notifications = some l ∧
          (⟨a.nextId, title, message, type⟩ : Notification) ∉ l) := by
  have hn := showNotification_notifications title message type a ns hc
  have hf := showNotification_fields title message type a ns hc
  have hstart : Tracked ⟨a.nextId, title, message, type⟩ (a.now + 5000) 0
      (showNotification title message type a) := by
    refine ⟨by rw [hf.2.2]; simp, ?_, ?_⟩
    · intro _
      refine ⟨ns, [], hn, le_refl _, ?_, ?_, ?_, ?_⟩
      · intro m hm
        have := hids m hm
        simp only
        omega
      · intro m hm
        simp at hm
      · rw [hf.1]
        simp
      · intro tm htm2 htarget
        rw [hf.1] at htm2
        rcases List.mem_append.mp htm2 with h2 | h2
        · have := htm tm h2
          simp only at htarget
          omega
        · rw [List.mem_singleton.mp h2]
    · intro hnow
      rw [hf.2.1] at hnow
      omega
  have hrun := Tracked.run _ _ evs 0 _ hstart
  rw [Nat.zero_add] at hrun
  obtain ⟨_, halive, hdead⟩ := hrun
  refine ⟨hn, ?_, ?_, hdead⟩
  · have h := runNotifEvents_now evs (showNotification title message type a)
    rw [hf.2.1] at h
    exact h
  · intro hnow
    obtain ⟨pre, post, hl, hk, hpre, hpost, _, _⟩ := halive hnow
    refine ⟨pre, post, hl, hk, ?_⟩
    have h1 : pre.filter (fun m => decide (m.id ≠ a.nextId)) = pre :=
      List.filter_eq_self.mpr (fun m hm => by simpa using hpre m hm)
    have h2 : post.filter (fun m => decide (m.id ≠ a.nextId)) = post :=
      List.filter_eq_self.mpr (fun m hm => by simpa using hpost m hm)
    unfold removeNotification
    rw [hl]
    simp only [Option.map_some', List.filter_append, List.filter_cons, h1, h2]
    simp

theorem notification_lifetime_witness :
    (∃ pre post,
        (runNotifEvents [.wait 2000, .push "Order Executed" "done" "success", .wait 4999]
          (showNotification "BUY Order Placed" "queued" "success"
            (App.start []))).notifications =
          some (pre ++ ⟨0, "BUY Order Placed", "queued", "success"⟩ :: post) ∧
        post.length ≤ 1) ∧
      (∃ l, (runNotifEvents [.wait 2000, .push "Order Executed" "done" "success", .wait 5000]
          (showNotification "BUY Order Placed" "queued" "success"
            (App.start []))).notifications = some l ∧
        (⟨0, "BUY Order Placed", "queued", "success"⟩ : Notification) ∉ l) := by
  constructor
  · obtain ⟨pre, post, h1, h2, _⟩ :=
      (notification_lifetime (App.start []) [] "BUY Order Placed" "queued" "success"
        [.wait 2000, .push "Order Executed" "done" "success", .wait 4999] rfl
        (by simp) (by simp [App.start])).2.2.1 (by decide)
    exact ⟨pre, post, h1, h2⟩
  · exact (notification_lifetime (App.start []) [] "BUY Order Placed" "queued" "success"
      [.wait 2000, .push "Order Executed" "done" "success", .wait 5000] rfl
      (by simp) (by simp [App.start])).2.2.2 (by decide)

/-! ## Watchlist: adding then removing -/

/-- C17: for every watchlist `w` of at most 20 entries and every non-empty
symbol `s` not in `w`, `addWatchlistItem s` followed by
`removeWatchlistItem s` yields the first 19 entries of `w`: the original
watchlist when it had fewer than 20 entries, and the watchlist without its
oldest entry when it had exactly 20. -/
theorem add_then_remove (s : String) (a : App) (hlen : a.watchlist.length ≤ 20)
    (hs : s ≠ "") (hnew : s ∉ a.watchlist) :
    (removeWatchlistItem s (addWatchlistItem s a)).watchlist = a.watchlist.take 19 ∧
      (a.watchlist.length < 20 →
        (removeWatchlistItem s (addWatchlistItem s a)).watchlist = a.watchlist) ∧
      (a.watchlist.length = 20 →
        (removeWatchlistItem s (addWatchlistItem s a)).watchlist = a.watchlist.dropLast) := by
  have hmain : (removeWatchlistItem s (addWatchlistItem s a)).watchlist = a.watchlist.take 19 := by
    rw [removeWatchlistItem_watchlist, addWatchlistItem_watchlist_take s a hs hnew hlen]
    have h20 : (s :: a.watchlist).take 20 = s :: a.watchlist.take 19 := rfl
    rw [h20, List.filter_cons]
    simp only [ne_eq, not_true_eq_false, decide_False, Bool.false_eq_true, if_false]
    rw [List.filter_eq_self]
    intro x hx
    have hxs : x ≠ s := fun e => hnew (e ▸ List.mem_of_mem_take hx)
    simpa using hxs
  refine ⟨hmain, ?_, ?_⟩
  · intro hlt
    rw [hmain, List.take_of_length_le (by omega)]
  · intro h20
    rw [hmain, List.dropLast_eq_take, h20]

theorem add_then_remove_witness :
    (removeWatchlistItem "INFY" (addWatchlistItem "INFY" (App.start ["NIFTY", "TCS"]))).watchlist =
        ["NIFTY", "TCS"] ∧
      (removeWatchlistItem "S01" (addWatchlistItem "S01"
        (App.start (sampleSymbols.drop 1)))).watchlist = (sampleSymbols.drop 1).dropLast :=
  ⟨(add_then_remove "INFY" (App.start ["NIFTY", "TCS"]) (by decide) (by decide)
      (by decide)).2.1 (by decide),
    (add_then_remove "S01" (App.start (sampleSymbols.drop 1)) (by decide) (by decide)
      (by decide)).2.2 (by decide)⟩

/-! ## Simulated profit and loss -/

/-- The sign in front of a displayed figure is dropped before it is parsed. -/
theorem stripPnlChars_sign (text : String) :
    stripPnlChars ("-₹" ++ text) = stripPnlChars text ∧
      stripPnlChars ("+₹" ++ text) = stripPnlChars text := by
  constructor <;> simp [stripPnlChars, String.data_append, List.filter_append]

/-- C15 fails on a loss: the displayed `-₹340` with the draw 0.5 (a change of
0) is read back as 340, because the minus sign is stripped with the rupee
sign, and is displayed as a gain of 340 with the class `positive`; the sum
p + (r - 0.5) * 100 is -340.  In general a loss is treated like the gain of
the same size. -/
theorem simulatePortfolioUpdates_loses_sign (parseFloat : String → Option ℚ)
    (toLocaleString : ℚ → String) (hparse : parseFloat "340" = some 340) :
    simulatePortfolioUpdates parseFloat toLocaleString (fun _ => 1 / 2)
        [⟨"-₹340", "pnl negative"⟩] =
        [⟨"+₹" ++ toLocaleString 340, "pnl positive"⟩] ∧
      (∀ (r : ℚ) (text c1 c2 : String),
        simulatePnl parseFloat toLocaleString r ⟨"-₹" ++ text, c1⟩ =
          simulatePnl parseFloat toLocaleString r ⟨"+₹" ++ text, c2⟩) := by
  constructor
  · have hstrip : stripPnlChars "-₹340" = "340" := by decide
    have hsum : (340 : ℚ) + (1 / 2 - 1 / 2) * 100 = 340 := by norm_num
    have hpos : (340 : ℚ) ≥ 0 := by norm_num
    have habs : |(340 : ℚ)| = 340 := abs_of_nonneg hpos
    have hcls : "pnl " ++ "positive" = "pnl positive" := by decide
    simp only [simulatePortfolioUpdates, List.enum, List.enumFrom, List.map_cons, List.map_nil,
      simulatePnl, hstrip, hparse, hsum, if_pos hpos, habs, hcls]
  · intro r text c1 c2
    simp only [simulatePnl, (stripPnlChars_sign text).1, (stripPnlChars_sign text).2]

theorem simulatePortfolioUpdates_loses_sign_witness :
    simulatePortfolioUpdates (fun s => if s = "340" then some 340 else none)
        (fun _ => "340") (fun _ => 1 / 2) [⟨"-₹340", "pnl negative"⟩] =
      [⟨"+₹" ++ "340", "pnl positive"⟩] :=
  (simulatePortfolioUpdates_loses_sign (fun s => if s = "340" then some 340 else none)
    (fun _ => "340") (by simp)).1

/-! ## The chart series as a walk -/

/-- The state of the loop of `generateSampleChartData` after `n` iterations. -/
theorem chartLoop_range (timeLabel : Nat → String) (random : Nat → ℚ) (n : Nat) :
    (List.range n).foldl (chartStep timeLabel random)
        { data := { labels := [], prices := [] }, basePrice := 91 / 2 } =
      { data :=
          { labels := (List.range n).map (fun i => timeLabel (50 - i))
            prices := (List.range n).map (fun i => max 30 (min 60 (basePriceAfter random (i + 1)))) }
        basePrice := basePriceAfter random n } := by
  induction n with
  | zero => rfl
  | succ k ih =>
    rw [List.range_succ, List.foldl_append, ih]
    simp only [List.foldl_cons, List.foldl_nil, chartStep, List.map_append, List.map_cons,
      List.map_nil, basePriceAfter]

/-- The series of `generateSampleChartData`: the unclamped walk, clamped value by value. -/
theorem generateSampleChartData_prices (timeLabel : Nat → String) (random : Nat → ℚ) :
    (generateSampleChartData timeLabel random).prices =
      (List.range 50).map (fun i => max 30 (min 60 (basePriceAfter random (i + 1)))) := by
  unfold generateSampleChartData
  rw [chartLoop_range]

/-- While the unclamped walk stays within the bounds, the walk of the
specification started on it follows it. -/
theorem specWalkFrom_in_band (random : Nat → ℚ) (n i : Nat)
    (hband : ∀ j, i < j → j ≤ i + n →
      30 ≤ basePriceAfter random j ∧ basePriceAfter random j ≤ 60) :
    specWalkFrom random (basePriceAfter random i) i n =
      (List.range' i n).map (fun j => max 30 (min 60 (basePriceAfter random (j + 1)))) := by
  induction n generalizing i with
  | zero => rfl
  | succ k ih =>
    have hb := hband (i + 1) (by omega) (by omega)
    have hstep : specNext (basePriceAfter random i) 2 30 60 (random i) =
        basePriceAfter random (i + 1) := by
      simp only [specNext, basePriceAfter]
      have h1 := hb.1
      have h2 := hb.2
      simp only [basePriceAfter] at h1 h2
      rw [min_eq_right h2, max_eq_right h1]
    have hclamp : max 30 (min 60 (basePriceAfter random (i + 1))) =
        basePriceAfter random (i + 1) := by
      rw [min_eq_right hb.2, max_eq_right hb.1]
    simp only [specWalkFrom, hstep, List.range'_succ, List.map_cons, hclamp]
    rw [ih (i + 1) (fun j h1 h2 => hband j (by omega) (by omega))]

/-- The agreement of the two walks uses the order alone: over any linearly
ordered carrier and any addition, rounding or not, if the running value `b`
stays within the bounds then the walk `v` that restarts from each clamped
value is the running value itself, clamped or not. -/
theorem clamped_walk_any_carrier {α : Type} [LinearOrder α] (add : α → α → α) (lo hi : α)
    (change b v : Nat → α) (hb : ∀ k, b (k + 1) = add (b k) (change k))
    (hv0 : v 0 = max lo (min hi (add (b 0) (change 0))))
    (hv : ∀ k, v (k + 1) = max lo (min hi (add (v k) (change (k + 1)))))
    (n : Nat) (hband : ∀ j, 1 ≤ j → j ≤ n + 1 → lo ≤ b j ∧ b j ≤ hi) :
    ∀ k, k ≤ n → v k = b (k + 1) ∧ v k = max lo (min hi (b (k + 1))) := by
  have hclamp : ∀ j, 1 ≤ j → j ≤ n + 1 → max lo (min hi (b j)) = b j := by
    intro j h1 h2
    rw [min_eq_right (hband j h1 h2).2, max_eq_right (hband j h1 h2).1]
  intro k
  induction k with
  | zero =>
    intro _
    have h : v 0 = b 1 := by
      rw [hv0, ← hb 0]
      exact hclamp 1 (le_refl _) (by omega)
    exact ⟨h, by rw [h, hclamp 1 (le_refl _) (by omega)]⟩
  | succ m ih =>
    intro hm
    have hprev := (ih (by omega)).1
    have h : v (m + 1) = b (m + 1 + 1) := by
      rw [hv m, hprev, ← hb (m + 1)]
      exact hclamp (m + 1 + 1) (by omega) (by omega)
    exact ⟨h, by rw [h, hclamp (m + 1 + 1) (by omega) (by omega)]⟩

/-- C16, as stated, fails: with seventeen draws of 0 and then draws of 3/4,
all in [0,1), `basePrice` falls to 28.5 and rises to 29, so the 18th value of
the series is still 30, while the generator step applied to the previous
series value 30 gives 30.5. -/
theorem chart_series_counterexample :
    (∀ i, 0 ≤ dippingDraws i ∧ dippingDraws i < 1) ∧
      (generateSampleChartData (fun _ => "") dippingDraws).prices[16]? = some 30 ∧
      (generateSampleChartData (fun _ => "") dippingDraws).prices[17]? = some 30 ∧
      (specClampedWalk dippingDraws)[17]? = some (specNext 30 2 30 60 (dippingDraws 17)) ∧
      specNext 30 2 30 60 (dippingDraws 17) = 61 / 2 ∧
      (generateSampleChartData (fun _ => "") dippingDraws).prices ≠ specClampedWalk dippingDraws := by
  have h16 : (generateSampleChartData (fun _ => "") dippingDraws).prices[16]? = some 30 := by
    rw [generateSampleChartData_prices]
    simp only [List.getElem?_map, List.getElem?_range (by omega : 16 < 50), Option.map_some',
      basePriceAfter, dippingDraws]
    norm_num
  have h17 : (generateSampleChartData (fun _ => "") dippingDraws).prices[17]? = some 30 := by
    rw [generateSampleChartData_prices]
    simp only [List.getElem?_map, List.getElem?_range (by omega : 17 < 50), Option.map_some',
      basePriceAfter, dippingDraws]
    norm_num
  have hstep : specNext 30 2 30 60 (dippingDraws 17) = 61 / 2 := by
    simp only [specNext, dippingDraws]
    norm_num
  have hspec : (specClampedWalk dippingDraws)[17]? = some (61 / 2) := by
    simp only [specClampedWalk, specWalkFrom, specNext, dippingDraws]
    norm_num
  refine ⟨?_, h16, h17, by rw [hspec, hstep], hstep, ?_⟩
  · intro i
    unfold dippingDraws
    split <;> norm_num
  · intro heq
    rw [heq, hspec] at h17
    norm_num at h17

/-- C16, amended: for every sequence of draws, the series of
`generateSampleChartData` has 50 values, the value of index i being the
unclamped walk from the base price 45.50 after i + 1 steps (each step adds
(draw - 0.5) * 2 to the running `basePrice`), clamped to [30,60]; it is the
clamped walk of the generator, each value the step applied to the previous
series value, whenever the unclamped walk stays within [30,60]. -/
theorem chart_series_walk (timeLabel : Nat → String) (random : Nat → ℚ) :
    (generateSampleChartData timeLabel random).prices =
        (List.range 50).map (fun i => max 30 (min 60 (basePriceAfter random (i + 1)))) ∧
      basePriceAfter random 0 = 91 / 2 ∧
      (∀ k, basePriceAfter random (k + 1) = basePriceAfter random k + (random k - 1 / 2) * 2) ∧
      ((∀ j, j ≤ 50 → 30 ≤ basePriceAfter random j ∧ basePriceAfter random j ≤ 60) →
        (generateSampleChartData timeLabel random).prices = specClampedWalk random) := by
  refine ⟨generateSampleChartData_prices timeLabel random, rfl, fun _ => rfl, ?_⟩
  intro hband
  rw [generateSampleChartData_prices, List.range_eq_range']
  unfold specClampedWalk
  have h0 : (91 / 2 : ℚ) = basePriceAfter random 0 := rfl
  rw [h0, specWalkFrom_in_band random 50 0 (fun j _ h2 => hband j (by omega))]

/-- The unclamped walk on the alternating draws: a step of -1, then one of +1/2. -/
theorem basePriceAfter_alternatingDraws (m : Nat) :
    basePriceAfter alternatingDraws (2 * m) = 91 / 2 - (m : ℚ) / 2 ∧
      basePriceAfter alternatingDraws (2 * m + 1) = 91 / 2 - (m : ℚ) / 2 - 1 := by
  induction m with
  | zero =>
    constructor
    · simp [basePriceAfter]
    · simp only [basePriceAfter, alternatingDraws]
      norm_num
  | succ k ih =>
    have heven : basePriceAfter alternatingDraws (2 * (k + 1)) =
        91 / 2 - ((k + 1 : Nat) : ℚ) / 2 := by
      have hidx : 2 * (k + 1) = (2 * k + 1) + 1 := by ring
      have hodd : (2 * k + 1) % 2 ≠ 0 := by omega
      rw [hidx, basePriceAfter, ih.2, alternatingDraws, if_neg hodd]
      push_cast
      ring
    refine ⟨heven, ?_⟩
    have hev : (2 * (k + 1)) % 2 = 0 := by omega
    rw [basePriceAfter, heven, alternatingDraws, if_pos hev]
    push_cast
    ring

theorem chart_series_walk_witness :
    (∀ i, 0 ≤ alternatingDraws i ∧ alternatingDraws i < 1) ∧
      (generateSampleChartData (fun _ => "") alternatingDraws).prices =
        specClampedWalk alternatingDraws ∧
      (generateSampleChartData (fun _ => "") alternatingDraws).prices[0]? = some (89 / 2) ∧
      (generateSampleChartData (fun _ => "") alternatingDraws).prices[1]? = some 45 ∧
      (generateSampleChartData (fun _ => "") alternatingDraws).prices[2]? = some 44 ∧
      (generateSampleChartData (fun _ => "") alternatingDraws).prices[49]? = some 33 := by
  have h := chart_series_walk (fun _ => "") alternatingDraws
  have hband : ∀ j, j ≤ 50 → 30 ≤ basePriceAfter alternatingDraws j ∧
      basePriceAfter alternatingDraws j ≤ 60 := by
    intro j hj
    have hm : (((j / 2 : Nat) : ℚ)) ≤ 25 := by
      have : j / 2 ≤ 25 := by omega
      exact_mod_cast this
    have hm0 : (0 : ℚ) ≤ ((j / 2 : Nat) : ℚ) := Nat.cast_nonneg _
    rcases Nat.mod_two_eq_zero_or_one j with hpar | hpar
    · have hj2 : j = 2 * (j / 2) := by omega
      rw [hj2, (basePriceAfter_alternatingDraws (j / 2)).1]
      constructor <;> linarith
    · have hj2 : j = 2 * (j / 2) + 1 := by omega
      have hlt : j / 2 ≤ 24 := by omega
      have hm24 : (((j / 2 : Nat) : ℚ)) ≤ 24 := by exact_mod_cast hlt
      rw [hj2, (basePriceAfter_alternatingDraws (j / 2)).2]
      constructor <;> linarith
  have h50 : basePriceAfter alternatingDraws 50 = 33 := by
    have h25 := (basePriceAfter_alternatingDraws 25).1
    norm_num at h25
    exact h25
  refine ⟨?_, h.2.2.2 hband, ?_, ?_, ?_, ?_⟩
  · intro i
    unfold alternatingDraws
    split <;> norm_num
  · rw [h.1]
    simp only [List.getElem?_map, List.getElem?_range (by omega : 0 < 50), Option.map_some',
      basePriceAfter, alternatingDraws]
    norm_num
  · rw [h.1]
    simp only [List.getElem?_map, List.getElem?_range (by omega : 1 < 50), Option.map_some',
      basePriceAfter, alternatingDraws]
    norm_num
  · rw [h.1]
    simp only [List.getElem?_map, List.getElem?_range (by omega : 2 < 50), Option.map_some',
      basePriceAfter, alternatingDraws]
    norm_num
  · rw [h.1]
    simp only [List.getElem?_map, List.getElem?_range (by omega : 49 < 50), Option.map_some',
      h50]
    norm_num

end Nubra
